import Mathlib

/-!
The origins storage engine (boltdb) and entity key encoding (dal).

A shallow embedding of `engine/boltdb/engine.go` and `dal/methods.go`.

* Go `string` values (domains, keys, names) are Lean `String`s. A `[]byte` value is an
  `Option Bytes`: `none` is the nil slice, `some bs` a non-nil slice with the bytes
  `bs` (`some []` is the empty non-nil slice).
* A Go `error` result is an `Option Error` (`none` is the nil error).
* Stateful code is explicit state passing: the transaction methods take and return
  the bolt transaction state, the engine methods take and return the state of the
  database file at `Engine.Path`.
-/

namespace Origins

/-- The bytes a non-nil `[]byte` holds. -/
abbrev Bytes := List UInt8

/-- The Go built-in `len` on a `[]byte`; the nil slice has length 0. -/
def len (v : Option Bytes) : Nat := (v.getD []).length

/-- Error values that can flow through the engine and the DAL. -/
inductive Error where
  | ErrPathRequired
  | ErrTxNotWritable
  | ErrBucketNameRequired
  | ErrKeyRequired
  | ErrKeyTooLarge
  | ErrValueTooLarge
  | ErrIncompatibleValue
  | other (msg : String)
  deriving DecidableEq, Repr

/-! ## The bolt backend -/

/-- Modelled from the spec: bolt's limit on the byte length of a key
(`bolt.MaxKeySize`; package github.com/boltdb/bolt is not under src/). -/
def MaxKeySize : Nat := 32768

/-- Modelled from the spec: bolt's limit on the byte length of a value
(`bolt.MaxValueSize`, that is `(1 << 31) - 2`; not under src/). -/
def MaxValueSize : Nat := 2147483646

/-- Modelled from the spec: what a bolt bucket holds under a key (the bolt package
is not under src/): a value, or a nested bucket. The value is the slice handed to
`Put`: within its transaction bolt keeps a nil slice as it is. The engine never creates
nested buckets, but a database file may contain them. -/
inductive Entry where
  | value (v : Option Bytes)
  | bucket
  deriving DecidableEq, Repr

/-- Modelled from the spec: an entry as a commit writes it to the file (not under
src/): a value read from the file is a non-nil slice, the empty one for a value that
was put as nil. -/
def Entry.committed : Entry → Entry
  | Entry.value v => Entry.value (some (v.getD []))
  | Entry.bucket => Entry.bucket

/-- Modelled from the spec: a bolt bucket, the per-domain namespace of section 6
(not under src/): a finite map from keys to entries, here a lookup function. -/
abbrev Bucket := String → Option Entry

/-- Modelled from the spec: the root of a bolt database, mapping a bucket name
(a domain) to its bucket (not under src/). -/
abbrev Store := String → Option Bucket

/-- Modelled from the spec: a bucket without keys (not under src/). -/
def Bucket.empty : Bucket := fun _ => none

/-- Modelled from the spec: the bucket with `key` bound to `e` and every other key as
in `b` (not under src/). -/
def Bucket.setEntry (b : Bucket) (key : String) (e : Entry) : Bucket :=
  fun k => if k = key then some e else b k

/-- Modelled from the spec: the database with the bucket `name` replaced by `b` and
every other bucket as in `s` (not under src/). -/
def Store.setBucket (s : Store) (name : String) (b : Bucket) : Store :=
  fun n => if n = name then some b else s n

/-- Modelled from the spec: the database as a commit writes it to the file (not under
src/): every entry of every bucket committed. -/
def Store.committed (s : Store) : Store :=
  fun n => (s n).map (fun b k => (b k).map Entry.committed)

/-- Modelled from the spec: an open bolt transaction, `*bolt.Tx` (not under src/):
the writable flag set by `db.Update` and cleared by `db.View`, and the transaction's
view of the database. -/
structure BoltTx where
  writable : Bool
  root : Store

/-- Modelled from the spec: `(*bolt.Tx).Bucket(name)` (not under src/): the bucket of
that name, nil when there is none. -/
def BoltTx.Bucket (tx : BoltTx) (name : String) : Option Bucket :=
  tx.root name

/-- Modelled from the spec: `(*bolt.Bucket).Get(key)` (not under src/): the value
stored under the key; nil when the key is missing or names a nested bucket, and when
the value was put as nil in this transaction. -/
def Bucket.Get (b : Bucket) (key : String) : Option Bytes :=
  match b key with
  | some (Entry.value v) => v
  | _ => none

/-- Modelled from the spec: `(*bolt.Tx).CreateBucketIfNotExists(name)` (not under
src/): section 4.1 "creates the domain namespace if absent". Bolt rejects the call
in a read-only transaction and rejects a blank name. The bucket handle it returns is
addressed by its name in the transaction state returned alongside. -/
def BoltTx.CreateBucketIfNotExists (tx : BoltTx) (name : String) :
    Option Error × BoltTx :=
  if !tx.writable then (some Error.ErrTxNotWritable, tx)
  else if name = "" then (some Error.ErrBucketNameRequired, tx)
  else match tx.root name with
    | some _ => (none, tx)
    | none =>
      (none, { tx with root := tx.root.setBucket name Bucket.empty })

/-- Modelled from the spec: `(*bolt.Bucket).Put(key, value)` on the bucket called
`name` (not under src/): section 4.1 "replaces any existing value". Bolt rejects the
call in a read-only transaction, a blank key, a key longer than `MaxKeySize`, a value
longer than `MaxValueSize`, and a key that names a nested bucket. -/
def BoltTx.Put (tx : BoltTx) (name key : String) (value : Option Bytes) :
    Option Error × BoltTx :=
  match tx.root name with
  | none => (some (Error.other "bucket not found"), tx)
  | some b =>
    if !tx.writable then (some Error.ErrTxNotWritable, tx)
    else if key = "" then (some Error.ErrKeyRequired, tx)
    else if key.utf8ByteSize > MaxKeySize then (some Error.ErrKeyTooLarge, tx)
    else if len value > MaxValueSize then (some Error.ErrValueTooLarge, tx)
    else if b key = some Entry.bucket then (some Error.ErrIncompatibleValue, tx)
    else
      (none, { tx with root := tx.root.setBucket name (b.setEntry key (Entry.value value)) })

/-! ## engine/boltdb/engine.go -/

/-- The counter codec `engine.EncodeCounter` / `engine.DecodeCounter`, which the
engine imports from a package that is not under src/; taken as a parameter. -/
structure CounterCodec where
  EncodeCounter : Nat → Option Bytes
  DecodeCounter : Bytes → Nat

/-- The Go function `func (t *Tx) Get(p, k string) ([]byte, error)`. The transaction
state is returned as well, so that the effect of the call on it can be stated. -/
def Tx.Get (t : BoltTx) (p k : String) : (Option Bytes × Option Error) × BoltTx :=
  match t.Bucket p with
  | none => ((none, none), t)
  | some b =>
    match b.Get k with
    | none => ((none, none), t)
    | some v => ((some v, none), t)

/-- The Go function `func (t *Tx) Set(p, k string, v []byte) error`. -/
def Tx.Set (t : BoltTx) (p k : String) (v : Option Bytes) : Option Error × BoltTx :=
  match t.CreateBucketIfNotExists p with
  | (some err, t1) => (some err, t1)
  | (none, t1) => t1.Put p k v

/-- The Go function `func (t *Tx) Incr(p, k string) (uint64, error)`; `id++` is on a
`uint64`, and `DecodeCounter` is called on a non-nil `buf` only. -/
def Tx.Incr (c : CounterCodec) (t : BoltTx) (p k : String) :
    (Nat × Option Error) × BoltTx :=
  match t.CreateBucketIfNotExists p with
  | (some err, t1) => ((0, some err), t1)
  | (none, t1) =>
    let buf : Option Bytes := match t1.Bucket p with
      | some b => b.Get k
      | none => none
    let id0 : Nat := match buf with
      | some bs => c.DecodeCounter bs % 2 ^ 64
      | none => 0
    let id : Nat := (id0 + 1) % 2 ^ 64
    match t1.Put p k (c.EncodeCounter id) with
    | (some err, t2) => ((0, some err), t2)
    | (none, t2) => ((id, none), t2)

/-- Modelled from the spec: the database file at `Engine.Path` as `bolt.Open` and a
commit see it (the bolt package is not under src/; section 4.1 "any backend I/O
failure is surfaced to the caller as an error value"): the error with which the file
refuses to open, the error with which it refuses a commit, and the committed data. -/
structure Disk where
  openErr : Option Error
  commitErr : Option Error
  store : Store

/-- Modelled from the spec: `bolt.Open(e.Path, 0600, nil)` (not under src/). -/
def Disk.Open (d : Disk) : Except Error Store :=
  match d.openErr with
  | some err => Except.error err
  | none => Except.ok d.store

/-- Modelled from the spec: `(*bolt.DB).View(fn)` (not under src/): runs `fn` in a
read-only transaction, which is rolled back when `fn` returns. The first component of
the result of `fn` stands for what the closure assigns to the variables around it. -/
def Disk.View {α : Type} (db : Store) (fn : BoltTx → (α × Option Error) × BoltTx) :
    α × Option Error :=
  (fn { writable := false, root := db }).1

/-- Modelled from the spec: `(*bolt.DB).Update(fn)` (not under src/): section 4.1
"commits if fn returns no error; rolls back entirely if fn returns an error or the
backend fails to commit". A commit writes the transaction to the file
(`Store.committed`). The first component of the result of `fn` stands for what the
closure assigns to the variables around it. -/
def Disk.Update {α : Type} (d : Disk) (db : Store)
    (fn : BoltTx → (α × Option Error) × BoltTx) : (α × Option Error) × Disk :=
  match fn { writable := true, root := db } with
  | ((a, some err), _) => ((a, some err), d)
  | ((a, none), t) =>
    match d.commitErr with
    | some err => ((a, some err), d)
    | none => ((a, none), { d with store := t.root.committed })

/-- The Go function `func (e *Engine) Get(p, k string) ([]byte, error)`. -/
def Engine.Get (d : Disk) (p k : String) : (Option Bytes × Option Error) × Disk :=
  match d.Open with
  | Except.error err => ((none, some err), d)
  | Except.ok db =>
    match Disk.View db (fun tx => Tx.Get tx p k) with
    | (_, some err) => ((none, some err), d)
    | (v, none) => ((v, none), d)

/-- The Go function `func (e *Engine) Set(p, k string, v []byte) error`. -/
def Engine.Set (d : Disk) (p k : String) (v : Option Bytes) : Option Error × Disk :=
  match d.Open with
  | Except.error err => (some err, d)
  | Except.ok db =>
    match d.Update db (fun tx => (((), (Tx.Set tx p k v).1), (Tx.Set tx p k v).2)) with
    | ((_, err), d1) => (err, d1)

/-- The Go function `func (e *Engine) Incr(p, k string) (uint64, error)`. -/
def Engine.Incr (c : CounterCodec) (d : Disk) (p k : String) :
    (Nat × Option Error) × Disk :=
  match d.Open with
  | Except.error err => ((0, some err), d)
  | Except.ok db =>
    match d.Update db (fun tx => Tx.Incr c tx p k) with
    | ((_, some err), d1) => ((0, some err), d1)
    | ((id, none), d1) => ((id, none), d1)

/-- The callbacks `func(tx engine.Tx) error` handed to `Multi`: a callback returns an
error value, or calls `Get`, `Set` or `Incr` on the handle and goes on according to
what the call returned. -/
inductive Callback where
  | ret (err : Option Error)
  | get (p k : String) (next : Option Bytes × Option Error → Callback)
  | set (p k : String) (v : Option Bytes) (next : Option Error → Callback)
  | incr (p k : String) (next : Nat × Option Error → Callback)

/-- Running a callback on the handle `&Tx{tx}`. -/
def Callback.run (c : CounterCodec) : Callback → BoltTx → Option Error × BoltTx
  | Callback.ret err, t => (err, t)
  | Callback.get p k next, t => (next (Tx.Get t p k).1).run c (Tx.Get t p k).2
  | Callback.set p k v next, t => (next (Tx.Set t p k v).1).run c (Tx.Set t p k v).2
  | Callback.incr p k next, t => (next (Tx.Incr c t p k).1).run c (Tx.Incr c t p k).2

/-- The Go function `func (e *Engine) Multi(f func(tx engine.Tx) error) error`. -/
def Engine.Multi (c : CounterCodec) (d : Disk) (f : Callback) : Option Error × Disk :=
  match d.Open with
  | Except.error err => (some err, d)
  | Except.ok db =>
    match d.Update db (fun tx => (((), (f.run c tx).1), (f.run c tx).2)) with
    | ((_, err), d1) => (err, d1)

/-! ## dal/methods.go -/

/-- Modelled from the spec: `uuid.UUID` of github.com/satori/go.uuid, a `[16]byte`
(not under src/). -/
structure UUID where
  bytes : List UInt8
  size : bytes.length = 16

/-- Modelled from the spec: `hex.Encode` as used for the canonical form of a UUID (not
under src/): two lower-case hexadecimal digits for each byte, high nibble first. -/
def hexEncode (bs : List UInt8) : List Char :=
  bs.flatMap (fun b => [Nat.digitChar (b.toNat / 16), Nat.digitChar (b.toNat % 16)])

/-- Modelled from the spec: `func (u UUID) String() string` (not under src/): section 6
"UUID in its canonical string form", the groups of 4, 2, 2, 2 and 6 bytes in
hexadecimal separated by dashes. -/
def UUID.String (u : UUID) : String :=
  String.mk (hexEncode (u.bytes.take 4) ++ ['-'] ++ hexEncode ((u.bytes.drop 4).take 2)
    ++ ['-'] ++ hexEncode ((u.bytes.drop 6).take 2) ++ ['-']
    ++ hexEncode ((u.bytes.drop 8).take 2) ++ ['-'] ++ hexEncode (u.bytes.drop 10))

/-- Modelled from the spec: the verb `%s` of `fmt.Sprintf` applied to a `*uuid.UUID`
(package fmt is not under src/): the `String()` of the UUID pointed to, and `<nil>`
for the nil pointer. -/
def fmtStringer (id : Option UUID) : String :=
  match id with
  | some u => u.String
  | none => "<nil>"

/-- Modelled from the spec: the digit loop of the verb `%d` (package fmt is not under
src/): `for u >= 10 { buf[i] = '0' + u%10; u /= 10 }; buf[i] = '0' + u`, writing
the digits in front of `acc`. The first argument bounds the number of rounds. -/
def fmtDigits : Nat → Nat → List Char → List Char
  | 0, u, acc => Nat.digitChar u :: acc
  | fuel + 1, u, acc =>
    if 10 ≤ u then fmtDigits fuel (u / 10) (Nat.digitChar (u % 10) :: acc)
    else Nat.digitChar u :: acc

/-- Modelled from the spec: the verb `%d` of `fmt.Sprintf` applied to an `int` (package
fmt is not under src/): section 6 "base-10 integer with no leading zeros", with a
minus sign in front of a negative number. -/
def fmtD (i : Int) : String :=
  if i < 0 then String.mk ('-' :: fmtDigits i.natAbs i.natAbs [])
  else String.mk (fmtDigits i.natAbs i.natAbs [])

/-- The key `fmt.Sprintf(logKey, name)`, with the format `logKey = "log.%s"`. -/
def logKey (name : String) : String :=
  "log." ++ name

/-- The key `fmt.Sprintf(segmentKey, id)`, with the format `segmentKey = "segment.%s"`. -/
def segmentKey (id : Option UUID) : String :=
  "segment." ++ fmtStringer id

/-- The key `fmt.Sprintf(blockKey, id, idx)`, with the format
`blockKey = "block.%s.%d"`. -/
def blockKey (id : Option UUID) (idx : Int) : String :=
  "block." ++ fmtStringer id ++ "." ++ fmtD idx

/-- The interface `storage.Tx` as the DAL uses it (package storage is not under src/):
the three methods called on the handle, over a handle state `σ`. -/
structure StorageTx (σ : Type) where
  Get : String → String → σ → (Option Bytes × Option Error) × σ
  Set : String → String → Option Bytes → σ → Option Error × σ
  Delete : String → String → σ → Option Error × σ

/-- The struct `Log` (declared outside src/): the two fields the DAL sets, and the
remaining fields as one value of type `α`. -/
structure Log (α : Type) where
  Domain : String
  Name : String
  rest : α

/-- The struct `Segment` (declared outside src/): the two fields the DAL sets, and the
remaining fields as one value of type `β`. -/
structure Segment (β : Type) where
  UUID : Option UUID
  Domain : String
  rest : β

/-- The encoding collaborators `marshalLog`, `unmarshalLog`, `marshalSegment` and
`unmarshalSegment` (declared outside src/), taken as parameters, with the zero values
of the remaining fields. A marshal function returns a `[]byte`, which may be nil.
`unmarshalLog(bytes, &log)` fills the struct it is given; the DAL calls it on a non-nil
slice only, so it takes the bytes of the slice. -/
structure Codec (α β : Type) where
  zeroLog : α
  zeroSegment : β
  marshalLog : Log α → Except Error (Option Bytes)
  unmarshalLog : Bytes → Log α → Except Error (Log α)
  marshalSegment : Segment β → Except Error (Option Bytes)
  unmarshalSegment : Bytes → Segment β → Except Error (Segment β)

section DAL
variable {σ α β : Type}

/-- The Go function `func GetLog(e storage.Tx, domain, name string) (*Log, error)`. -/
def GetLog (e : StorageTx σ) (cd : Codec α β) (domain name : String) (s : σ) :
    (Option (Log α) × Option Error) × σ :=
  let key := logKey name
  match e.Get domain key s with
  | ((_, some err), s1) => ((none, some err), s1)
  | ((none, none), s1) => ((none, none), s1)
  | ((some bytes, none), s1) =>
    match cd.unmarshalLog bytes { Domain := domain, Name := name, rest := cd.zeroLog } with
    | Except.error err => ((none, some err), s1)
    | Except.ok log => ((some log, none), s1)

/-- The Go function `func SetLog(e storage.Tx, domain string, log *Log) (int, error)`. -/
def SetLog (e : StorageTx σ) (cd : Codec α β) (domain : String) (log : Log α) (s : σ) :
    (Nat × Option Error) × σ :=
  match cd.marshalLog log with
  | Except.error err => ((0, some err), s)
  | Except.ok bytes =>
    let key := logKey log.Name
    match e.Set domain key bytes s with
    | (err, s1) => ((len bytes, err), s1)

/-- The Go function `func DeleteLog(e storage.Tx, domain string, name string) error`. -/
def DeleteLog (e : StorageTx σ) (domain name : String) (s : σ) : Option Error × σ :=
  let key := logKey name
  e.Delete domain key s

/-- The Go function `func GetSegment(e storage.Tx, domain string, id *uuid.UUID) (*Segment, error)`. -/
def GetSegment (e : StorageTx σ) (cd : Codec α β) (domain : String) (id : Option UUID)
    (s : σ) : (Option (Segment β) × Option Error) × σ :=
  let key := segmentKey id
  match e.Get domain key s with
  | ((_, some err), s1) => ((none, some err), s1)
  | ((none, none), s1) => ((none, none), s1)
  | ((some bytes, none), s1) =>
    match cd.unmarshalSegment bytes { UUID := id, Domain := domain, rest := cd.zeroSegment } with
    | Except.error err => ((none, some err), s1)
    | Except.ok seg => ((some seg, none), s1)

/-- The Go function `func SetSegment(e storage.Tx, domain string, segment *Segment) (int, error)`. -/
def SetSegment (e : StorageTx σ) (cd : Codec α β) (domain : String) (segment : Segment β)
    (s : σ) : (Nat × Option Error) × σ :=
  match cd.marshalSegment segment with
  | Except.error err => ((0, some err), s)
  | Except.ok bytes =>
    let key := segmentKey segment.UUID
    match e.Set domain key bytes s with
    | (err, s1) => ((len bytes, err), s1)

/-- The Go function `func DeleteSegment(e storage.Tx, domain string, id *uuid.UUID) error`. -/
def DeleteSegment (e : StorageTx σ) (domain : String) (id : Option UUID) (s : σ) :
    Option Error × σ :=
  let key := segmentKey id
  e.Delete domain key s

/-- The Go function `func GetBlock(e storage.Tx, domain string, id *uuid.UUID, idx int) ([]byte, error)`. -/
def GetBlock (e : StorageTx σ) (domain : String) (id : Option UUID) (idx : Int) (s : σ) :
    (Option Bytes × Option Error) × σ :=
  let key := blockKey id idx
  e.Get domain key s

/-- The Go function `func SetBlock(e storage.Tx, domain string, id *uuid.UUID, idx int, bytes []byte) (int, error)`. -/
def SetBlock (e : StorageTx σ) (domain : String) (id : Option UUID) (idx : Int)
    (bytes : Option Bytes) (s : σ) : (Nat × Option Error) × σ :=
  let key := blockKey id idx
  match e.Set domain key bytes s with
  | (err, s1) => ((len bytes, err), s1)

/-- The Go function `func DeleteBlock(e storage.Tx, domain string, id *uuid.UUID, idx int) error`. -/
def DeleteBlock (e : StorageTx σ) (domain : String) (id : Option UUID) (idx : Int) (s : σ) :
    Option Error × σ :=
  let key := blockKey id idx
  e.Delete domain key s

end DAL

/-! ## Handles, contracts and traces used to state the properties -/

/-- The handle made of the boltdb transaction methods `Tx.Get` and `Tx.Set`; `del`
stands for a `Delete` method, which the type `Tx` of engine.go does not declare. -/
def boltHandle (del : String → String → BoltTx → Option Error × BoltTx) :
    StorageTx BoltTx where
  Get := fun p k t => Tx.Get t p k
  Set := fun p k v t => Tx.Set t p k v
  Delete := del

/-- An in-memory handle: a map from domain and key to the stored slice, nil where
nothing is stored. -/
def mapTx : StorageTx (String → String → Option Bytes) where
  Get := fun d k m => ((m d k, none), m)
  Set := fun d k v m => (none, fun d1 k1 => if d1 = d ∧ k1 = k then v else m d1 k1)
  Delete := fun d k m => (none, fun d1 k1 => if d1 = d ∧ k1 = k then none else m d1 k1)

/-- The in-memory handle in a read-only transaction: `Get` reads the map, `Set` and
`Delete` are refused. -/
def readOnlyTx : StorageTx (String → String → Option Bytes) where
  Get := fun d k m => ((m d k, none), m)
  Set := fun _ _ _ m => (some Error.ErrTxNotWritable, m)
  Delete := fun _ _ m => (some Error.ErrTxNotWritable, m)

/-- A call made on a `storage.Tx` handle. -/
inductive Call where
  | get (domain key : String)
  | set (domain key : String) (v : Option Bytes)
  | delete (domain key : String)
  deriving DecidableEq, Repr

/-- The handle `e` with every call made on it appended to a log. -/
def traced {σ : Type} (e : StorageTx σ) : StorageTx (σ × List Call) where
  Get := fun d k s => ((e.Get d k s.1).1, ((e.Get d k s.1).2, s.2 ++ [Call.get d k]))
  Set := fun d k v s => ((e.Set d k v s.1).1, ((e.Set d k v s.1).2, s.2 ++ [Call.set d k v]))
  Delete := fun d k s => ((e.Delete d k s.1).1, ((e.Delete d k s.1).2, s.2 ++ [Call.delete d k]))

/-- The Get/Set contract of section 4.1: a `Set` that reports no error is read back by
the next `Get` of the same domain and key, with no error and with the bytes that were
set: either the slice as it was set (nil for nil, as within one BoltDB transaction), or
a non-nil slice with its bytes (the empty one for nil, as across a commit). -/
def GetSetContract {σ : Type} (e : StorageTx σ) : Prop :=
  ∀ (d k : String) (v : Option Bytes) (s s1 : σ),
    e.Set d k v s = (none, s1) →
      (e.Get d k s1).1 = (v, none) ∨ (e.Get d k s1).1 = (some (v.getD []), none)

/-- The Delete contract of section 3: after a `Delete` that reports no error the next
`Get` of the same domain and key finds nothing and reports no error. -/
def DeleteContract {σ : Type} (e : StorageTx σ) : Prop :=
  ∀ (d k : String) (s s1 : σ),
    e.Delete d k s = (none, s1) → (e.Get d k s1).1 = (none, none)

/-- The write contract of section 7: a `Set` that reports an error did not take effect,
every `Get` returns afterwards what it returned before. -/
def FailedSetContract {σ : Type} (e : StorageTx σ) : Prop :=
  ∀ (d k : String) (v : Option Bytes) (s : σ), (e.Set d k v s).1 ≠ none →
    ∀ d1 k1 : String, (e.Get d1 k1 (e.Set d k v s).2).1 = (e.Get d1 k1 s).1

/-- The assumption that `unmarshalLog` undoes `marshalLog`: decoding the bytes of a log
into a struct succeeds and gives the struct the remaining content of that log. -/
def Codec.LogRoundTrip {α β : Type} (cd : Codec α β) : Prop :=
  ∀ (l l0 : Log α) (b : Option Bytes), cd.marshalLog l = Except.ok b →
    ∃ l1, cd.unmarshalLog (b.getD []) l0 = Except.ok l1 ∧ l1.rest = l.rest

/-- The assumption that `unmarshalLog` leaves the fields `Domain` and `Name` of the
struct it fills as they are. -/
def Codec.KeepsIdentity {α β : Type} (cd : Codec α β) : Prop :=
  ∀ (b : Bytes) (l0 l1 : Log α), cd.unmarshalLog b l0 = Except.ok l1 →
    l1.Domain = l0.Domain ∧ l1.Name = l0.Name

/-- A codec that stores the remaining fields of a log or segment as they are. -/
def plainCodec : Codec Bytes Bytes where
  zeroLog := []
  zeroSegment := []
  marshalLog := fun l => Except.ok (some l.rest)
  unmarshalLog := fun b l0 => Except.ok { l0 with rest := b }
  marshalSegment := fun g => Except.ok (some g.rest)
  unmarshalSegment := fun b g0 => Except.ok { g0 with rest := b }

/-- A codec whose `marshalLog` and `marshalSegment` fail. -/
def failingCodec : Codec Bytes Bytes where
  zeroLog := []
  zeroSegment := []
  marshalLog := fun _ => Except.error (Error.other "marshal")
  unmarshalLog := fun b l0 => Except.ok { l0 with rest := b }
  marshalSegment := fun _ => Except.error (Error.other "marshal")
  unmarshalSegment := fun b g0 => Except.ok { g0 with rest := b }

/-- A codec for logs and segments without remaining content: the encoding is the nil
slice, and decoding leaves the struct as it is. -/
def nilCodec : Codec Unit Unit where
  zeroLog := ()
  zeroSegment := ()
  marshalLog := fun _ => Except.ok none
  unmarshalLog := fun _ l0 => Except.ok l0
  marshalSegment := fun _ => Except.ok none
  unmarshalSegment := fun _ g0 => Except.ok g0

/-- A codec that restores the remaining content and sets the field `Domain` of the
decoded log to `stamped`. -/
def stampingCodec : Codec Bytes Bytes where
  zeroLog := []
  zeroSegment := []
  marshalLog := fun l => Except.ok (some l.rest)
  unmarshalLog := fun b l0 => Except.ok { Domain := "stamped", Name := l0.Name, rest := b }
  marshalSegment := fun g => Except.ok (some g.rest)
  unmarshalSegment := fun b g0 => Except.ok { g0 with rest := b }

/-- The assumption that `DecodeCounter` undoes `EncodeCounter` on the `uint64` range:
it recovers a counter from the bytes of its encoding. -/
def CounterCodec.RoundTrip (c : CounterCodec) : Prop :=
  ∀ x : Nat, x < 2 ^ 64 → c.DecodeCounter ((c.EncodeCounter x).getD []) = x

/-- The assumption that an encoded counter is a value bolt accepts. -/
def CounterCodec.Fits (c : CounterCodec) : Prop :=
  ∀ x : Nat, x < 2 ^ 64 → len (c.EncodeCounter x) ≤ MaxValueSize

/-- The assumption that an encoded counter is not the nil slice. -/
def CounterCodec.NonNil (c : CounterCodec) : Prop :=
  ∀ x : Nat, x < 2 ^ 64 → c.EncodeCounter x ≠ none

/-- A counter codec: eight bytes, most significant first. -/
def bigEndianCodec : CounterCodec where
  EncodeCounter := fun x => some
    [UInt8.ofNat (x / 2 ^ 56), UInt8.ofNat (x / 2 ^ 48), UInt8.ofNat (x / 2 ^ 40),
     UInt8.ofNat (x / 2 ^ 32), UInt8.ofNat (x / 2 ^ 24), UInt8.ofNat (x / 2 ^ 16),
     UInt8.ofNat (x / 2 ^ 8), UInt8.ofNat x]
  DecodeCounter := fun bs => bs.foldl (fun a b => a * 256 + b.toNat) 0

/-- A counter codec that round-trips and encodes the counter 1 as the nil slice: the
eight-byte codec otherwise, and no bytes read as 1. -/
def nilOneCodec : CounterCodec where
  EncodeCounter := fun x => if x = 1 then none else bigEndianCodec.EncodeCounter x
  DecodeCounter := fun bs => if bs = [] then 1 else bigEndianCodec.DecodeCounter bs

/-- A counter codec that round-trips but pads every encoding beyond the value size
bolt accepts. -/
def paddedCodec : CounterCodec where
  EncodeCounter := fun x => some (List.replicate (x + 2147483647) 0)
  DecodeCounter := fun bs => bs.length - 2147483647

/-- A key of 32769 bytes, one more than bolt accepts. -/
def longKey : String := String.mk (List.replicate 32769 'a')

/-- A write call made by a callback on its transaction handle. -/
inductive Write where
  | set (p k : String) (v : Option Bytes)
  | incr (p k : String)
  deriving DecidableEq, Repr

/-- The writes a callback issues when run on the transaction `t`, in call order. -/
def Callback.writes (c : CounterCodec) : Callback → BoltTx → List Write
  | Callback.ret _, _ => []
  | Callback.get p k next, t => (next (Tx.Get t p k).1).writes c (Tx.Get t p k).2
  | Callback.set p k v next, t =>
    Write.set p k v :: (next (Tx.Set t p k v).1).writes c (Tx.Set t p k v).2
  | Callback.incr p k next, t =>
    Write.incr p k :: (next (Tx.Incr c t p k).1).writes c (Tx.Incr c t p k).2

/-- Applying one write to a transaction. -/
def Write.apply (c : CounterCodec) (t : BoltTx) : Write → BoltTx
  | Write.set p k v => (Tx.Set t p k v).2
  | Write.incr p k => (Tx.Incr c t p k).2

/-- The methods engine.go declares on `*Tx` (lines 19, 40 and 50). -/
def Tx.methods : List String := ["Get", "Set", "Incr"]

/-- The methods methods.go calls on its `storage.Tx` handle (`e.Get`, `e.Set` and
`e.Delete`). -/
def StorageTx.methods : List String := ["Get", "Set", "Delete"]

/-- The identity of an entity within a domain: a log name, a segment UUID, or a segment
UUID with a block index. -/
inductive Identity where
  | log (name : String)
  | segment (id : Option UUID)
  | block (id : Option UUID) (idx : Int)

/-- The engine key of an entity, as computed by the DAL functions of its kind. -/
def Identity.key : Identity → String
  | Identity.log name => logKey name
  | Identity.segment id => segmentKey id
  | Identity.block id idx => blockKey id idx

/-- The value of a string of decimal digits. -/
def decimalValue (ds : List Char) : Nat :=
  ds.foldl (fun a ch => 10 * a + (ch.toNat - 48)) 0

/-- In the words of section 6: `ds` is the base-10 rendering of `n` with no leading
zeros: a non-empty string of decimal digits whose value is `n` and that starts with the
digit zero only when it is the string `0`. -/
def IsDecimal (ds : List Char) (n : Nat) : Prop :=
  ds ≠ [] ∧ (∀ ch ∈ ds, ch.isDigit = true) ∧ (ds.head? = some '0' → ds = ['0']) ∧
    decimalValue ds = n

instance (ds : List Char) (n : Nat) : Decidable (IsDecimal ds n) := by
  unfold IsDecimal
  infer_instance

/-- What a database holds under a key of a domain: nothing when the bucket or the key
is missing. -/
def Store.entry (s : Store) (p k : String) : Option Entry :=
  (s p).bind (fun b => b k)

/-- The slice a transaction reads from a database for a domain and key: nil when the
bucket or the key is missing, when the key names a nested bucket, and when the value was
put as nil in this transaction. -/
def Store.find (s : Store) (p k : String) : Option Bytes :=
  match s p with
  | some b => b.Get k
  | none => none

/-- The bytes of the string `world`. -/
def world : Bytes := [119, 111, 114, 108, 100]

/-- The database file that holds the store `s`, on a backend that opens it and commits
to it without failure. -/
def Disk.ofStore (s : Store) : Disk := { openErr := none, commitErr := none, store := s }

/-- The empty database file. -/
def emptyDisk : Disk := Disk.ofStore (fun _ => none)

/-- The UUID 123e4567-e89b-12d3-a456-426614174000. -/
def sampleUUID : UUID :=
  ⟨[0x12, 0x3e, 0x45, 0x67, 0xe8, 0x9b, 0x12, 0xd3, 0xa4, 0x56, 0x42, 0x66, 0x14, 0x17, 0x40, 0x00],
    rfl⟩

/-! ## The engine: reads, writes and isolation -/

theorem Bucket.Get_empty (k : String) : Bucket.empty.Get k = none := rfl

theorem Bucket.Get_setEntry_same (b : Bucket) (k : String) (v : Option Bytes) :
    (b.setEntry k (Entry.value v)).Get k = v := by
  simp [Bucket.Get, Bucket.setEntry]

theorem Bucket.Get_setEntry_other (b : Bucket) (k k1 : String) (e : Entry) (h : k1 ≠ k) :
    (b.setEntry k e).Get k1 = b.Get k1 := by
  simp [Bucket.Get, Bucket.setEntry, h]

theorem Store.find_setBucket_same (s : Store) (p k : String) (b : Bucket) :
    (s.setBucket p b).find p k = b.Get k := by
  simp [Store.find, Store.setBucket]

theorem Store.find_setBucket_other (s : Store) (p p1 k1 : String) (b : Bucket)
    (h : p1 ≠ p) : (s.setBucket p b).find p1 k1 = s.find p1 k1 := by
  simp [Store.find, Store.setBucket, h]

theorem Store.find_of_bucket {s : Store} {p : String} {b : Bucket} (h : s p = some b)
    (k : String) : s.find p k = b.Get k := by
  simp [Store.find, h]

theorem Store.find_of_no_bucket {s : Store} {p : String} (h : s p = none)
    (k : String) : s.find p k = none := by
  simp [Store.find, h]

/-- A value entry is read by a transaction as the slice it holds. -/
theorem Store.find_of_entry {s : Store} {p k : String} {b : Bucket} {v : Option Bytes}
    (hb : s p = some b) (hk : b k = some (Entry.value v)) : s.find p k = v := by
  simp [Store.find, hb, Bucket.Get, hk]

/-- A value entry is read from the committed database as a non-nil slice with the
bytes of the entry. -/
theorem Store.find_committed_of_entry {s : Store} {p k : String} {b : Bucket}
    {v : Option Bytes} (hb : s p = some b) (hk : b k = some (Entry.value v)) :
    s.committed.find p k = some (v.getD []) := by
  simp [Store.find, Store.committed, hb, Bucket.Get, hk, Entry.committed]

theorem Tx.Get_state (t : BoltTx) (p k : String) : (Tx.Get t p k).2 = t := by
  unfold Tx.Get
  split
  · rfl
  · split <;> rfl

/-- What a `Tx.Get` returns, in terms of the database the transaction sees. -/
theorem Tx.Get_result (t : BoltTx) (p k : String) :
    (Tx.Get t p k).1 = (t.root.find p k, none) := by
  unfold Tx.Get BoltTx.Bucket Store.find
  cases h : t.root p with
  | none => rfl
  | some b =>
    cases hb : b.Get k with
    | none => simp [hb]
    | some v => simp [hb]

theorem Tx.Get_eq (t : BoltTx) (p k : String) :
    Tx.Get t p k = ((t.root.find p k, none), t) :=
  Prod.ext (Tx.Get_result t p k) (Tx.Get_state t p k)

/-- Creating a bucket changes no value. -/
theorem BoltTx.CreateBucketIfNotExists_find (t : BoltTx) (p p1 k1 : String) :
    (t.CreateBucketIfNotExists p).2.root.find p1 k1 = t.root.find p1 k1 := by
  unfold BoltTx.CreateBucketIfNotExists
  split_ifs
  · rfl
  · rfl
  · split
    · rfl
    · rename_i hr
      by_cases hp : p1 = p
      · subst hp
        simp [Store.find_setBucket_same, Bucket.Get_empty, Store.find_of_no_bucket hr]
      · simp [Store.find_setBucket_other _ _ _ _ _ hp]

/-- A `Put` that reports an error changes nothing. -/
theorem BoltTx.Put_failed (t : BoltTx) (p k : String) (v : Option Bytes)
    (h : (t.Put p k v).1 ≠ none) : (t.Put p k v).2 = t := by
  cases hr : t.root p with
  | none => simp [BoltTx.Put, hr]
  | some b =>
    simp only [BoltTx.Put, hr] at h ⊢
    split_ifs at h ⊢ <;> first | rfl | exact absurd rfl h

/-- A `Put` changes the value of no other domain and key. -/
theorem BoltTx.Put_frame (t : BoltTx) (p k : String) (v : Option Bytes) (p1 k1 : String)
    (h : ¬ (p1 = p ∧ k1 = k)) :
    (t.Put p k v).2.root.find p1 k1 = t.root.find p1 k1 := by
  unfold BoltTx.Put
  split
  · rfl
  · rename_i b hr
    split_ifs
    all_goals first
      | rfl
      | (by_cases hp : p1 = p
         · subst hp
           have hk : k1 ≠ k := fun hk => h ⟨rfl, hk⟩
           simp [Store.find_setBucket_same, Bucket.Get_setEntry_other _ _ _ _ hk,
             Store.find_of_bucket hr]
         · simp [Store.find_setBucket_other _ _ _ _ _ hp])

/-- A `Put` that reports no error leaves the slice it was given under the key. -/
theorem BoltTx.Put_success {t t1 : BoltTx} {p k : String} {v : Option Bytes}
    (h : t.Put p k v = (none, t1)) :
    ∃ b, t1.root p = some b ∧ b k = some (Entry.value v) := by
  unfold BoltTx.Put at h
  split at h
  · simp at h
  · split_ifs at h <;> simp at h
    subst h
    simp [Store.setBucket, Bucket.setEntry]

theorem Tx.Set_success {t t1 : BoltTx} {p k : String} {v : Option Bytes}
    (h : Tx.Set t p k v = (none, t1)) :
    ∃ b, t1.root p = some b ∧ b k = some (Entry.value v) := by
  unfold Tx.Set at h
  split at h
  · simp at h
  · exact BoltTx.Put_success h

/-- A `Tx.Set` leaves the value of every other domain and key as it was. -/
theorem Tx.Set_frame (t : BoltTx) (p k : String) (v : Option Bytes) (p1 k1 : String)
    (h : ¬ (p1 = p ∧ k1 = k)) :
    (Tx.Set t p k v).2.root.find p1 k1 = t.root.find p1 k1 := by
  unfold Tx.Set
  split
  · rename_i err t1 hc
    have := BoltTx.CreateBucketIfNotExists_find t p p1 k1
    rw [hc] at this
    exact this
  · rename_i t1 hc
    have := BoltTx.CreateBucketIfNotExists_find t p p1 k1
    rw [hc] at this
    rw [BoltTx.Put_frame t1 p k v p1 k1 h]
    exact this

/-- A `Tx.Set` that reports an error leaves the value of every domain and key as it
was. -/
theorem Tx.Set_failed (t : BoltTx) (p k : String) (v : Option Bytes)
    (h : (Tx.Set t p k v).1 ≠ none) (p1 k1 : String) :
    (Tx.Set t p k v).2.root.find p1 k1 = t.root.find p1 k1 := by
  have hc1 := BoltTx.CreateBucketIfNotExists_find t p p1 k1
  cases hc : t.CreateBucketIfNotExists p with
  | mk e t1 =>
    rw [hc] at hc1
    cases e with
    | some err => simpa [Tx.Set, hc] using hc1
    | none =>
      simp only [Tx.Set, hc] at h ⊢
      rw [BoltTx.Put_failed t1 p k v h]
      exact hc1

/-- C1. Set followed by Get returns the value written: on every database file state,
if `Engine.Set(p, k, v)` returns no error then the next `Engine.Get(p, k)` returns, with
no error, a non-nil slice with exactly the bytes of `v` (no bytes when `v` is the nil or
the empty slice), whatever was stored before. (A `Set` that returns no error has a
non-empty domain and a non-empty key, so these need not be assumed.) -/
theorem engine_set_then_get (d d1 : Disk) (p k : String) (v : Option Bytes)
    (h : Engine.Set d p k v = (none, d1)) :
    Engine.Get d1 p k = ((some (v.getD []), none), d1) := by
  unfold Engine.Set Disk.Open at h
  cases ho : d.openErr with
  | some err => simp [ho] at h
  | none =>
    simp only [ho, Disk.Update] at h
    cases hs : Tx.Set { writable := true, root := d.store } p k v with
    | mk e t1 =>
      cases e with
      | some err => simp [hs] at h
      | none =>
        obtain ⟨b, hb, hk⟩ := Tx.Set_success hs
        have hf := Store.find_committed_of_entry hb hk
        cases hc : d.commitErr with
        | some err => simp [hs, hc] at h
        | none =>
          simp [hs, hc] at h
          subst h
          simp [Engine.Get, Disk.Open, ho, Disk.View, Tx.Get_eq, hf]

/-- Witness of C1: `Set("test", "hello", "world")` on the empty database, then
`Get("test", "hello")`. -/
theorem engine_set_then_get_witness :
    Engine.Set emptyDisk "test" "hello" (some world)
        = (none, (Engine.Set emptyDisk "test" "hello" (some world)).2) ∧
      Engine.Get (Engine.Set emptyDisk "test" "hello" (some world)).2 "test" "hello"
        = ((some world, none), (Engine.Set emptyDisk "test" "hello" (some world)).2) :=
  ⟨Prod.ext (by decide) rfl,
    engine_set_then_get emptyDisk _ "test" "hello" (some world) (Prod.ext (by decide) rfl)⟩

/-- C9. Domains and keys are isolated: a `Tx.Get` of any other domain and key returns
the same result after `Tx.Set(p, k, v)` as before it, whether or not the `Set`
succeeded, and `Tx.Get` returns the transaction as it received it (it creates no
bucket). -/
theorem tx_set_isolated (t : BoltTx) (p k : String) (v : Option Bytes) (p1 k1 : String)
    (h : (p1, k1) ≠ (p, k)) :
    (Tx.Get (Tx.Set t p k v).2 p1 k1).1 = (Tx.Get t p1 k1).1 ∧
      (Tx.Get t p1 k1).2 = t := by
  refine ⟨?_, Tx.Get_state t p1 k1⟩
  rw [Tx.Get_result, Tx.Get_result, Tx.Set_frame t p k v p1 k1]
  rintro ⟨rfl, rfl⟩
  exact h rfl

/-- Witness of C9: the key `hello` of the domain `other` after a write to the key
`hello` of the domain `test`. -/
theorem tx_set_isolated_witness :
    (("other", "hello") : String × String) ≠ ("test", "hello") ∧
      (Tx.Get (Tx.Set { writable := true, root := fun _ => none } "test" "hello"
          (some world)).2 "other" "hello").1
        = (Tx.Get { writable := true, root := fun _ => none } "other" "hello").1 ∧
      (Tx.Get { writable := true, root := fun _ => none } "other" "hello").2
        = { writable := true, root := fun _ => none } :=
  ⟨by decide, tx_set_isolated _ "test" "hello" (some world) "other" "hello" (by decide)⟩

/-! ## Absence -/

theorem GetLog_absent {σ α β : Type} (e : StorageTx σ) (cd : Codec α β)
    (domain name : String) (s : σ) (h : (e.Get domain (logKey name) s).1 = (none, none)) :
    GetLog e cd domain name s = ((none, none), (e.Get domain (logKey name) s).2) := by
  cases hg : e.Get domain (logKey name) s with
  | mk r s1 =>
    rw [hg] at h
    simp only at h
    subst h
    simp [GetLog, hg]

theorem GetSegment_absent {σ α β : Type} (e : StorageTx σ) (cd : Codec α β)
    (domain : String) (id : Option UUID) (s : σ)
    (h : (e.Get domain (segmentKey id) s).1 = (none, none)) :
    GetSegment e cd domain id s = ((none, none), (e.Get domain (segmentKey id) s).2) := by
  cases hg : e.Get domain (segmentKey id) s with
  | mk r s1 =>
    rw [hg] at h
    simp only at h
    subst h
    simp [GetSegment, hg]

theorem Store.find_absent {s : Store} {p k : String}
    (h : s p = none ∨ ∃ b, s p = some b ∧ b k = none) : s.find p k = none := by
  rcases h with h | ⟨b, hb, hk⟩
  · exact Store.find_of_no_bucket h k
  · rw [Store.find_of_bucket hb]
    simp [Bucket.Get, hk]

/-- C4. Absence is nil without error: when the bucket of the domain does not exist, or
the key is not present in it, `Tx.Get` returns `(nil, nil)`; and so do `GetLog`,
`GetSegment` and `GetBlock` on a handle that reads through `Tx.Get`, for a log name,
segment UUID or block whose key it is. -/
theorem absence_is_nil (t : BoltTx) (p k : String)
    (h : t.Bucket p = none ∨ ∃ b, t.Bucket p = some b ∧ b k = none) :
    Tx.Get t p k = ((none, none), t) ∧
      (∀ (del : String → String → BoltTx → Option Error × BoltTx) (α β : Type)
          (cd : Codec α β) (name : String), k = logKey name →
          GetLog (boltHandle del) cd p name t = ((none, none), t)) ∧
      (∀ (del : String → String → BoltTx → Option Error × BoltTx) (α β : Type)
          (cd : Codec α β) (id : Option UUID), k = segmentKey id →
          GetSegment (boltHandle del) cd p id t = ((none, none), t)) ∧
      (∀ (del : String → String → BoltTx → Option Error × BoltTx) (id : Option UUID)
          (idx : Int), k = blockKey id idx →
          GetBlock (boltHandle del) p id idx t = ((none, none), t)) := by
  have hf : t.root.find p k = none := Store.find_absent h
  have hg : Tx.Get t p k = ((none, none), t) := by rw [Tx.Get_eq, hf]
  refine ⟨hg, ?_, ?_, ?_⟩
  · intro del α β cd name hk
    subst hk
    have := GetLog_absent (boltHandle del) cd p name t (by simp [boltHandle, hg])
    simpa [boltHandle, hg] using this
  · intro del α β cd id hk
    subst hk
    have := GetSegment_absent (boltHandle del) cd p id t (by simp [boltHandle, hg])
    simpa [boltHandle, hg] using this
  · intro del id idx hk
    subst hk
    simpa [GetBlock, boltHandle] using hg

/-- Witness of C4: the log `events` of the domain `test` in a transaction on the empty
database. -/
theorem absence_is_nil_witness :
    Tx.Get { writable := false, root := fun _ => none } "test" (logKey "events")
        = ((none, none), { writable := false, root := fun _ => none }) ∧
      GetLog (boltHandle (fun _ _ t => (none, t))) plainCodec "test" "events"
          { writable := false, root := fun _ => none }
        = ((none, none), { writable := false, root := fun _ => none }) :=
  have h := absence_is_nil { writable := false, root := fun _ => none } "test"
    (logKey "events") (Or.inl rfl)
  ⟨h.1, h.2.1 (fun _ _ t => (none, t)) Bytes Bytes plainCodec "events" rfl⟩

/-! ## Multi -/

/-- Running a callback leaves the transaction in the state that its writes, applied in
call order, produce. -/
theorem Callback.run_state (c : CounterCodec) (f : Callback) :
    ∀ t : BoltTx, (f.run c t).2 = (f.writes c t).foldl (Write.apply c) t := by
  induction f with
  | ret err => intro t; rfl
  | get p k next ih =>
    intro t
    simp only [Callback.run, Callback.writes]
    rw [ih, Tx.Get_state]
  | set p k v next ih =>
    intro t
    simp only [Callback.run, Callback.writes, List.foldl_cons]
    rw [ih]
    rfl
  | incr p k next ih =>
    intro t
    simp only [Callback.run, Callback.writes, List.foldl_cons]
    rw [ih]
    rfl

/-- An `Engine.Multi` that returns an error, be it the error of the callback, of
opening the file or of the commit, leaves the database file as it was. -/
theorem Engine.Multi_failed (c : CounterCodec) (d : Disk) (f : Callback)
    (h : (Engine.Multi c d f).1 ≠ none) : (Engine.Multi c d f).2 = d := by
  unfold Engine.Multi Disk.Open Disk.Update at h ⊢
  cases ho : d.openErr with
  | some err => simp
  | none =>
    simp only [ho] at h ⊢
    cases hs : (f.run c { writable := true, root := d.store }).1 with
    | some err => simp [hs]
    | none =>
      cases hc : d.commitErr with
      | some err => simp [hs, hc]
      | none => simp [hs, hc] at h

/-- C3. Multi is all-or-nothing: on every database file that opens, whatever it holds,
and for every callback, if the callback returns an error after any sequence of `Get`,
`Set` and `Incr` calls on the handle, `Engine.Multi` returns that same error and the
file, hence the store, is identical to what it was before (also on a file that would
refuse the commit); if the callback returns no error and the commit succeeds,
`Engine.Multi` returns no error and the store afterwards is the result of applying the
writes of the callback in call order, as the commit writes it to the file. If the
callback returns no error and the commit fails, `Engine.Multi` returns the error of the
commit; if the file does not open, it returns that error; and whatever error
`Engine.Multi` returns, the file is as before. -/
theorem multi_all_or_nothing (c : CounterCodec) (f : Callback) :
    (∀ (d : Disk) (err : Error), d.openErr = none →
        (f.run c { writable := true, root := d.store }).1 = some err →
        Engine.Multi c d f = (some err, d)) ∧
      (∀ d : Disk, d.openErr = none → d.commitErr = none →
        (f.run c { writable := true, root := d.store }).1 = none →
        Engine.Multi c d f
          = (none, { d with store :=
              ((f.writes c { writable := true, root := d.store }).foldl (Write.apply c)
                { writable := true, root := d.store }).root.committed })) ∧
      (∀ (d : Disk) (err : Error), d.openErr = none → d.commitErr = some err →
        (f.run c { writable := true, root := d.store }).1 = none →
        Engine.Multi c d f = (some err, d)) ∧
      (∀ (d : Disk) (err : Error), d.openErr = some err →
        Engine.Multi c d f = (some err, d)) ∧
      (∀ d : Disk, (Engine.Multi c d f).1 ≠ none → (Engine.Multi c d f).2 = d) := by
  refine ⟨?_, ?_, ?_, ?_, fun d h => Engine.Multi_failed c d f h⟩
  · intro d err ho h
    simp [Engine.Multi, Disk.Open, ho, Disk.Update, h]
  · intro d ho hc h
    simp [Engine.Multi, Disk.Open, ho, Disk.Update, h, hc, Callback.run_state]
  · intro d err ho hc h
    simp [Engine.Multi, Disk.Open, ho, Disk.Update, h, hc]
  · intro d err ho
    simp [Engine.Multi, Disk.Open, ho]

/-- Witness of C3: a callback that writes the key `a`, then fails before writing the key
`b`; `Multi` returns the error of the callback and the database is as before, on the
empty file and on a file that would refuse the commit. -/
theorem multi_all_or_nothing_witness :
    Engine.Multi bigEndianCodec emptyDisk
        (Callback.set "test" "a" (some world)
          (fun _ => Callback.ret (some (Error.other "stop"))))
      = (some (Error.other "stop"), emptyDisk) ∧
    Engine.Multi bigEndianCodec
        { openErr := none, commitErr := some (Error.other "full"), store := fun _ => none }
        (Callback.set "test" "a" (some world)
          (fun _ => Callback.ret (some (Error.other "stop"))))
      = (some (Error.other "stop"),
        { openErr := none, commitErr := some (Error.other "full"), store := fun _ => none }) :=
  ⟨(multi_all_or_nothing bigEndianCodec
      (Callback.set "test" "a" (some world)
        (fun _ => Callback.ret (some (Error.other "stop"))))).1
      emptyDisk (Error.other "stop") rfl rfl,
    (multi_all_or_nothing bigEndianCodec
      (Callback.set "test" "a" (some world)
        (fun _ => Callback.ret (some (Error.other "stop"))))).1
      { openErr := none, commitErr := some (Error.other "full"), store := fun _ => none }
      (Error.other "stop") rfl rfl⟩

/-! ## Counters -/

theorem UInt8.toNat_ofNat_mod (n : Nat) : (UInt8.ofNat n).toNat = n % 256 := by
  simp [UInt8.toNat, UInt8.ofNat, Fin.ofNat]

theorem bigEndianCodec_roundTrip : bigEndianCodec.RoundTrip := by
  intro x hx
  simp only [bigEndianCodec, Option.getD_some, List.foldl_cons, List.foldl_nil,
    UInt8.toNat_ofNat_mod]
  omega

theorem bigEndianCodec_fits : bigEndianCodec.Fits := by
  intro x _
  simp [bigEndianCodec, MaxValueSize, len]

theorem bigEndianCodec_nonNil : bigEndianCodec.NonNil := by
  intro x _
  simp [bigEndianCodec]

theorem nilOneCodec_roundTrip : nilOneCodec.RoundTrip := by
  intro x hx
  by_cases h1 : x = 1
  · simp [nilOneCodec, h1]
  · have hb := bigEndianCodec_roundTrip x hx
    have hne : (bigEndianCodec.EncodeCounter x).getD [] ≠ [] := List.cons_ne_nil _ _
    simp only [nilOneCodec, h1, if_false]
    rw [if_neg hne]
    exact hb

theorem Store.committed_entry {s : Store} {p k : String} {b : Bucket} {v : Option Bytes}
    (hb : s p = some b) (hk : b k = some (Entry.value v)) :
    ∃ b1, s.committed p = some b1 ∧ b1 k = some (Entry.value (some (v.getD []))) := by
  simp [Store.committed, hb, hk, Entry.committed]

/-- One `Tx.Incr` in a writable transaction: with the counter at `m` (absent when `m`
is 0, and otherwise stored as a non-nil slice that decodes to `m`) the call returns
`m + 1` and leaves the encoding of `m + 1` under the key. -/
theorem Tx.Incr_step (c : CounterCodec) (hfit : c.Fits) (t : BoltTx)
    (p k : String) (hw : t.writable = true) (hp : p ≠ "") (hk : k ≠ "")
    (hkl : k.utf8ByteSize ≤ MaxKeySize) (m : Nat) (hm : m + 1 < 2 ^ 64)
    (hcur : (m = 0 ∧ (t.root p = none ∨ ∃ b, t.root p = some b ∧ b k = none)) ∨
      ∃ b bs, t.root p = some b ∧ b k = some (Entry.value (some bs)) ∧
        c.DecodeCounter bs = m) :
    (Tx.Incr c t p k).1 = (m + 1, none) ∧ (Tx.Incr c t p k).2.writable = true ∧
      ∃ b, (Tx.Incr c t p k).2.root p = some b ∧
        b k = some (Entry.value (c.EncodeCounter (m + 1))) := by
  have hl : ¬ k.utf8ByteSize > MaxKeySize := by omega
  have hv : ¬ MaxValueSize < len (c.EncodeCounter (m + 1)) := by
    have := hfit (m + 1) hm
    omega
  cases hr : t.root p with
  | none =>
    have hm0 : m = 0 := by
      rcases hcur with h | ⟨b, bs, hb, _⟩
      · exact h.1
      · rw [hr] at hb
        exact absurd hb (by simp)
    subst hm0
    have hv1 : ¬ MaxValueSize < len (c.EncodeCounter 1) := by simpa using hv
    simp [Tx.Incr, BoltTx.CreateBucketIfNotExists, hw, hp, hr, BoltTx.Bucket,
      BoltTx.Put, Store.setBucket, Bucket.Get_empty, hk, hl, Bucket.empty,
      Bucket.setEntry, hv1]
  | some b =>
    rcases hcur with ⟨hm0, h⟩ | ⟨b1, bs, hb1, hk1, hd⟩
    · subst hm0
      have hbk : b k = none := by
        rcases h with h | ⟨b1, hb1, hk1⟩
        · rw [hr] at h
          exact absurd h (by simp)
        · rw [hr] at hb1
          cases hb1
          exact hk1
      have hg : b.Get k = none := by simp [Bucket.Get, hbk]
      have hv1 : ¬ MaxValueSize < len (c.EncodeCounter 1) := by simpa using hv
      simp [Tx.Incr, BoltTx.CreateBucketIfNotExists, hw, hp, hr, BoltTx.Bucket,
        BoltTx.Put, Store.setBucket, hg, hk, hl, hbk, Bucket.setEntry, hv1]
    · rw [hr] at hb1
      cases hb1
      have hg : b.Get k = some bs := by simp [Bucket.Get, hk1]
      have hmm : m % 18446744073709551616 = m := by omega
      have hmod1 : (m + 1) % 18446744073709551616 = m + 1 := by omega
      simp [Tx.Incr, BoltTx.CreateBucketIfNotExists, hw, hp, hr, BoltTx.Bucket,
        BoltTx.Put, Store.setBucket, hg, hk, hl, hk1, hd, hmm, hmod1,
        Bucket.setEntry, hv]

/-- One `Engine.Incr` on a database file that opens and commits. -/
theorem Engine.Incr_next (c : CounterCodec) (hfit : c.Fits) (d : Disk)
    (p k : String) (hopen : d.openErr = none) (hcommit : d.commitErr = none)
    (hp : p ≠ "") (hk : k ≠ "") (hkl : k.utf8ByteSize ≤ MaxKeySize) (m : Nat)
    (hm : m + 1 < 2 ^ 64)
    (hcur : (m = 0 ∧ (d.store p = none ∨ ∃ b, d.store p = some b ∧ b k = none)) ∨
      ∃ b bs, d.store p = some b ∧ b k = some (Entry.value (some bs)) ∧
        c.DecodeCounter bs = m) :
    (Engine.Incr c d p k).1 = (m + 1, none) ∧ (Engine.Incr c d p k).2.openErr = none ∧
      (Engine.Incr c d p k).2.commitErr = none ∧
      ∃ b, (Engine.Incr c d p k).2.store p = some b ∧
        b k = some (Entry.value (some ((c.EncodeCounter (m + 1)).getD []))) := by
  obtain ⟨h1, _, b, hb, hbk⟩ := Tx.Incr_step c hfit { writable := true, root := d.store }
    p k rfl hp hk hkl m hm hcur
  cases hi : Tx.Incr c { writable := true, root := d.store } p k with
  | mk r t1 =>
    rw [hi] at h1 hb
    simp only at h1 hb
    subst h1
    obtain ⟨b1, hb1, hbk1⟩ := Store.committed_entry hb hbk
    simp [Engine.Incr, Disk.Open, hopen, Disk.Update, hi, hcommit, hb1, hbk1]

theorem Store.entry_eq_none_iff (s : Store) (p k : String) :
    s.entry p k = none ↔ (s p = none ∨ ∃ b, s p = some b ∧ b k = none) := by
  cases h : s p <;> simp [Store.entry, h]

theorem Store.entry_eq_some_iff (s : Store) (p k : String) (e : Entry) :
    s.entry p k = some e ↔ ∃ b, s p = some b ∧ b k = some e := by
  cases h : s p <;> simp [Store.entry, h]

/-- The counter that a database holds under a key: 0 when there is no entry, and `m`
when the entry is a non-nil value that decodes to `m`. -/
theorem Store.counter_cases (c : CounterCodec) (s : Store) (p k : String) (m : Nat)
    (h : (m = 0 ∧ s.entry p k = none) ∨
      ∃ bs, s.entry p k = some (Entry.value (some bs)) ∧ c.DecodeCounter bs = m) :
    (m = 0 ∧ (s p = none ∨ ∃ b, s p = some b ∧ b k = none)) ∨
      ∃ b bs, s p = some b ∧ b k = some (Entry.value (some bs)) ∧
        c.DecodeCounter bs = m := by
  rcases h with ⟨h0, h⟩ | ⟨bs, h, hd⟩
  · exact Or.inl ⟨h0, (Store.entry_eq_none_iff s p k).1 h⟩
  · obtain ⟨b, hb, hk⟩ := (Store.entry_eq_some_iff s p k _).1 h
    exact Or.inr ⟨b, bs, hb, hk, hd⟩

/-- The successive `Engine.Incr(p, k)`: `ds i` is the file on which the call number `i`
is made; each holds under `(p, k)` what the call before left there. After `n` calls the
counter stored under `(p, k)` is `n`. -/
theorem Engine.Incr_sequence (c : CounterCodec) (hrt : c.RoundTrip) (hfit : c.Fits)
    (ds : Nat → Disk) (p k : String) (N : Nat)
    (hopen : ∀ i, i ≤ N → (ds i).openErr = none)
    (hcommit : ∀ i, i ≤ N → (ds i).commitErr = none)
    (hp : p ≠ "") (hk : k ≠ "") (hkl : k.utf8ByteSize ≤ MaxKeySize)
    (hfresh : (ds 0).store.entry p k = none)
    (hchain : ∀ i, i < N →
      (ds (i + 1)).store.entry p k = (Engine.Incr c (ds i) p k).2.store.entry p k) :
    ∀ n : Nat, n ≤ N → n < 2 ^ 64 →
      (n = 0 ∧ (ds n).store.entry p k = none) ∨
        ∃ bs, (ds n).store.entry p k = some (Entry.value (some bs)) ∧
          c.DecodeCounter bs = n := by
  intro n
  induction n with
  | zero => intro _ _; exact Or.inl ⟨rfl, hfresh⟩
  | succ n ih =>
    intro hn hlt
    have hcur := ih (by omega) (by omega)
    obtain ⟨_, _, _, b, hb, hbk⟩ :=
      Engine.Incr_next c hfit (ds n) p k (hopen n (by omega)) (hcommit n (by omega))
        hp hk hkl n hlt (Store.counter_cases c _ p k n hcur)
    refine Or.inr ⟨_, ?_, hrt (n + 1) hlt⟩
    rw [hchain n (by omega)]
    exact (Store.entry_eq_some_iff _ p k _).2 ⟨b, hb, hbk⟩

/-- The successive `Tx.Incr(p, k)` within write transactions: `ts i` is the transaction
state in which the call number `i` is made; each holds under `(p, k)` what the call
before left there. After `n` calls the counter stored under `(p, k)` is `n`. -/
theorem Tx.Incr_chain (c : CounterCodec) (hrt : c.RoundTrip) (hfit : c.Fits)
    (hnn : c.NonNil) (ts : Nat → BoltTx) (p k : String) (N : Nat)
    (hw : ∀ i, i ≤ N → (ts i).writable = true)
    (hp : p ≠ "") (hk : k ≠ "") (hkl : k.utf8ByteSize ≤ MaxKeySize)
    (hfresh : (ts 0).root.entry p k = none)
    (hchain : ∀ i, i < N →
      (ts (i + 1)).root.entry p k = (Tx.Incr c (ts i) p k).2.root.entry p k) :
    ∀ n : Nat, n ≤ N → n < 2 ^ 64 →
      (n = 0 ∧ (ts n).root.entry p k = none) ∨
        ∃ bs, (ts n).root.entry p k = some (Entry.value (some bs)) ∧
          c.DecodeCounter bs = n := by
  intro n
  induction n with
  | zero => intro _ _; exact Or.inl ⟨rfl, hfresh⟩
  | succ n ih =>
    intro hn hlt
    have hcur := ih (by omega) (by omega)
    obtain ⟨_, _, b, hb, hbk⟩ :=
      Tx.Incr_step c hfit (ts n) p k (hw n (by omega)) hp hk hkl n hlt
        (Store.counter_cases c _ p k n hcur)
    have hdec := hrt (n + 1) hlt
    cases he : c.EncodeCounter (n + 1) with
    | none => exact absurd he (hnn (n + 1) hlt)
    | some bs =>
      rw [he] at hbk hdec
      refine Or.inr ⟨bs, ?_, by simpa using hdec⟩
      rw [hchain n (by omega)]
      exact (Store.entry_eq_some_iff _ p k _).2 ⟨b, hb, hbk⟩

/-- An `Engine.Incr` of the blank domain, on a file that opens. -/
theorem Engine.Incr_blank_domain (c : CounterCodec) (d : Disk) (k : String)
    (hopen : d.openErr = none) :
    Engine.Incr c d "" k = ((0, some Error.ErrBucketNameRequired), d) := by
  simp [Engine.Incr, Disk.Open, hopen, Disk.Update, Tx.Incr,
    BoltTx.CreateBucketIfNotExists]

/-- An `Engine.Incr` of the blank key in a non-empty domain, on a file that opens. -/
theorem Engine.Incr_blank_key (c : CounterCodec) (d : Disk) (p : String)
    (hopen : d.openErr = none) (hp : p ≠ "") :
    Engine.Incr c d p "" = ((0, some Error.ErrKeyRequired), d) := by
  cases hr : d.store p <;>
    simp [Engine.Incr, Disk.Open, hopen, Disk.Update, Tx.Incr,
      BoltTx.CreateBucketIfNotExists, BoltTx.Put, BoltTx.Bucket, Store.setBucket, hp, hr]

/-- An `Engine.Incr` of a non-empty key that is too long for bolt, in a non-empty
domain, on a file that opens. -/
theorem Engine.Incr_key_too_large (c : CounterCodec) (d : Disk) (p k : String)
    (hopen : d.openErr = none) (hp : p ≠ "") (hk : k ≠ "")
    (hl : MaxKeySize < k.utf8ByteSize) :
    Engine.Incr c d p k = ((0, some Error.ErrKeyTooLarge), d) := by
  cases hr : d.store p <;>
    simp [Engine.Incr, Disk.Open, hopen, Disk.Update, Tx.Incr,
      BoltTx.CreateBucketIfNotExists, BoltTx.Put, BoltTx.Bucket, Store.setBucket, hp, hk,
      hl, hr]

/-- The first `Engine.Incr` of an accepted key with a codec whose encoding of 1 is too
long for bolt, on a file that opens. -/
theorem Engine.Incr_value_too_large (c : CounterCodec) (d : Disk) (p k : String)
    (hopen : d.openErr = none) (hp : p ≠ "") (hk : k ≠ "")
    (hkl : k.utf8ByteSize ≤ MaxKeySize)
    (hfresh : d.store p = none ∨ ∃ b, d.store p = some b ∧ b k = none)
    (hl : MaxValueSize < len (c.EncodeCounter 1)) :
    Engine.Incr c d p k = ((0, some Error.ErrValueTooLarge), d) := by
  have hkl1 : ¬ MaxKeySize < k.utf8ByteSize := by omega
  cases hr : d.store p with
  | none =>
    simp [Engine.Incr, Disk.Open, hopen, Disk.Update, Tx.Incr,
      BoltTx.CreateBucketIfNotExists, BoltTx.Put, BoltTx.Bucket, Store.setBucket, hp, hk,
      hkl1, hr, Bucket.Get_empty, hl]
  | some b =>
    have hbk : b k = none := by
      rcases hfresh with h | ⟨b1, hb1, hk1⟩
      · rw [hr] at h
        exact absurd h (by simp)
      · rw [hr] at hb1
        cases hb1
        exact hk1
    have hg : b.Get k = none := by simp [Bucket.Get, hbk]
    simp [Engine.Incr, Disk.Open, hopen, Disk.Update, Tx.Incr,
      BoltTx.CreateBucketIfNotExists, BoltTx.Put, BoltTx.Bucket, hp, hk,
      hkl1, hr, hg, hl]

theorem utf8ByteSize_go_replicate (n : Nat) :
    String.utf8ByteSize.go (List.replicate n 'a') = n := by
  induction n with
  | zero => rfl
  | succ n ih =>
    simp only [List.replicate_succ, String.utf8ByteSize.go, ih]
    rfl

theorem utf8ByteSize_replicate (n : Nat) :
    (String.mk (List.replicate n 'a')).utf8ByteSize = n :=
  utf8ByteSize_go_replicate n

theorem longKey_size : longKey.utf8ByteSize = 32769 :=
  utf8ByteSize_replicate 32769

theorem longKey_ne : longKey ≠ "" := by
  intro h
  have := congrArg String.utf8ByteSize h
  rw [longKey_size] at this
  exact absurd this (by decide)

theorem paddedCodec_length (x : Nat) :
    len (paddedCodec.EncodeCounter x) = x + 2147483647 :=
  List.length_replicate _ _

theorem paddedCodec_roundTrip : paddedCodec.RoundTrip := by
  intro x _
  show len (paddedCodec.EncodeCounter x) - 2147483647 = x
  rw [paddedCodec_length]
  omega

/-- An `Engine.Incr` on a file that does not open. -/
theorem Engine.Incr_not_open (c : CounterCodec) (d : Disk) (p k : String) (err : Error)
    (hopen : d.openErr = some err) : Engine.Incr c d p k = ((0, some err), d) := by
  simp [Engine.Incr, Disk.Open, hopen]

/-- An `Engine.Incr` on a file that opens and refuses the commit returns 0 and an
error, and leaves the file as it was. -/
theorem Engine.Incr_not_committed (c : CounterCodec) (d : Disk) (p k : String)
    (err : Error) (hopen : d.openErr = none) (hcommit : d.commitErr = some err) :
    ∃ e1, Engine.Incr c d p k = ((0, some e1), d) := by
  cases hi : Tx.Incr c { writable := true, root := d.store } p k with
  | mk r t1 =>
    obtain ⟨id, e⟩ := r
    cases e with
    | some e1 =>
      exact ⟨e1, by simp [Engine.Incr, Disk.Open, hopen, Disk.Update, hi]⟩
    | none =>
      exact ⟨err, by simp [Engine.Incr, Disk.Open, hopen, Disk.Update, hi, hcommit]⟩

/-- Counterexample to C2 as stated (for every domain and counter key, assuming only that
`DecodeCounter` undoes `EncodeCounter`): on the empty database, with a counter codec that
round-trips, the first `Incr` of the blank domain returns 0 and the error of bolt for a
blank bucket name, not 1; so does the first `Incr` of the blank key, with the error of
bolt for a blank key, and the first `Incr` of a key of 32769 bytes, with the error of
bolt for a key that is too large; with a round-tripping codec whose encodings are
larger than bolt accepts, the first `Incr` returns 0 and the error of bolt for a value
that is too large; on a file that refuses the commit, or does not open, the first
`Incr` returns 0 and that error; and with a round-tripping codec that encodes 1 as the
nil slice, two `Tx.Incr` in one write transaction return 1 and 1. -/
theorem incr_blank_domain_fails :
    bigEndianCodec.RoundTrip ∧ emptyDisk.store "" = none ∧ emptyDisk.store "test" = none ∧
      (Engine.Incr bigEndianCodec emptyDisk "" "counter").1
        = (0, some Error.ErrBucketNameRequired) ∧
      (Engine.Incr bigEndianCodec emptyDisk "test" "").1
        = (0, some Error.ErrKeyRequired) ∧
      (Engine.Incr bigEndianCodec emptyDisk "test" longKey).1
        = (0, some Error.ErrKeyTooLarge) ∧
      paddedCodec.RoundTrip ∧
      (Engine.Incr paddedCodec emptyDisk "test" "counter").1
        = (0, some Error.ErrValueTooLarge) ∧
      (Engine.Incr bigEndianCodec
        { openErr := none, commitErr := some (Error.other "full"), store := fun _ => none }
        "test" "counter").1 = (0, some (Error.other "full")) ∧
      (Engine.Incr bigEndianCodec
        { openErr := some (Error.other "locked"), commitErr := none, store := fun _ => none }
        "test" "counter").1 = (0, some (Error.other "locked")) ∧
      nilOneCodec.RoundTrip ∧
      (Tx.Incr nilOneCodec { writable := true, root := fun _ => none } "test" "counter").1
        = (1, none) ∧
      (Tx.Incr nilOneCodec
        (Tx.Incr nilOneCodec { writable := true, root := fun _ => none } "test" "counter").2
        "test" "counter").1 = (1, none) :=
  ⟨bigEndianCodec_roundTrip, rfl, rfl, by decide, by decide,
    congrArg Prod.fst
      (Engine.Incr_key_too_large bigEndianCodec emptyDisk "test" longKey rfl (by decide)
        longKey_ne (by rw [longKey_size]; decide)),
    paddedCodec_roundTrip,
    congrArg Prod.fst
      (Engine.Incr_value_too_large paddedCodec emptyDisk "test" "counter" rfl (by decide)
        (by decide) (by decide) (Or.inl rfl) (by rw [paddedCodec_length]; decide)),
    by decide, by decide, nilOneCodec_roundTrip, by decide, by decide⟩

/-- C2 (amended). Sequential counters count from 1. Let `ds 0`, `ds 1`, ... be the
database files on which successive `Engine.Incr(p, k)` are made, each holding under
`(p, k)` what the call before left there (no other write to `(p, k)` in between), all of
them files that open and commit; let `p` be a non-empty domain and `k` a non-empty
counter key of at most `MaxKeySize` bytes that has never been written in `p` on `ds 0`;
let `DecodeCounter` undo `EncodeCounter` and no encoding be longer than bolt accepts.
Then the call made on `ds n` returns `n + 1` with no error, as long as
`n + 1 < 2 ^ 64`. The same holds of successive `Tx.Incr(p, k)` in write transactions
`ts 0`, `ts 1`, ... (one transaction as it goes from call to call) when, in addition, no
encoding is the nil slice. On every file that opens, `Engine.Incr` returns 0 and the
error of bolt, and leaves the file as it was, for the blank domain, for the blank key of
a non-empty domain, for a non-empty key longer than `MaxKeySize` bytes of a non-empty
domain, and, for an accepted key that has never been written, when the encoding of 1 is
longer than bolt accepts. On a file that does not open it returns 0 and that error, and
on a file that opens and refuses the commit it returns 0 and an error; the file is as it
was. -/
theorem incr_counts_from_one :
    (∀ (c : CounterCodec) (ds : Nat → Disk) (p k : String) (n : Nat),
        c.RoundTrip → c.Fits →
        (∀ i, i ≤ n → (ds i).openErr = none) → (∀ i, i ≤ n → (ds i).commitErr = none) →
        p ≠ "" → k ≠ "" → k.utf8ByteSize ≤ MaxKeySize →
        (ds 0).store.entry p k = none →
        (∀ i, i < n →
          (ds (i + 1)).store.entry p k = (Engine.Incr c (ds i) p k).2.store.entry p k) →
        n + 1 < 2 ^ 64 →
        (Engine.Incr c (ds n) p k).1 = (n + 1, none)) ∧
      (∀ (c : CounterCodec) (ts : Nat → BoltTx) (p k : String) (n : Nat),
        c.RoundTrip → c.Fits → c.NonNil →
        (∀ i, i ≤ n → (ts i).writable = true) →
        p ≠ "" → k ≠ "" → k.utf8ByteSize ≤ MaxKeySize →
        (ts 0).root.entry p k = none →
        (∀ i, i < n →
          (ts (i + 1)).root.entry p k = (Tx.Incr c (ts i) p k).2.root.entry p k) →
        n + 1 < 2 ^ 64 →
        (Tx.Incr c (ts n) p k).1 = (n + 1, none)) ∧
      (∀ (c : CounterCodec) (d : Disk) (k : String), d.openErr = none →
        Engine.Incr c d "" k = ((0, some Error.ErrBucketNameRequired), d)) ∧
      (∀ (c : CounterCodec) (d : Disk) (p : String), d.openErr = none → p ≠ "" →
        Engine.Incr c d p "" = ((0, some Error.ErrKeyRequired), d)) ∧
      (∀ (c : CounterCodec) (d : Disk) (p k : String), d.openErr = none → p ≠ "" →
        k ≠ "" → MaxKeySize < k.utf8ByteSize →
        Engine.Incr c d p k = ((0, some Error.ErrKeyTooLarge), d)) ∧
      (∀ (c : CounterCodec) (d : Disk) (p k : String), d.openErr = none → p ≠ "" →
        k ≠ "" → k.utf8ByteSize ≤ MaxKeySize → d.store.entry p k = none →
        MaxValueSize < len (c.EncodeCounter 1) →
        Engine.Incr c d p k = ((0, some Error.ErrValueTooLarge), d)) ∧
      (∀ (c : CounterCodec) (d : Disk) (p k : String) (err : Error),
        d.openErr = some err → Engine.Incr c d p k = ((0, some err), d)) ∧
      (∀ (c : CounterCodec) (d : Disk) (p k : String) (err : Error),
        d.openErr = none → d.commitErr = some err →
        ∃ e1, Engine.Incr c d p k = ((0, some e1), d)) := by
  refine ⟨?_, ?_, ?_, ?_, ?_, ?_, ?_, ?_⟩
  · intro c ds p k n hrt hfit ho hc hp hk hkl hfresh hchain hn
    have hcur := Engine.Incr_sequence c hrt hfit ds p k n ho hc hp hk hkl hfresh hchain n
      (le_refl n) (by omega)
    exact (Engine.Incr_next c hfit (ds n) p k (ho n (le_refl n)) (hc n (le_refl n))
      hp hk hkl n hn (Store.counter_cases c _ p k n hcur)).1
  · intro c ts p k n hrt hfit hnn hw hp hk hkl hfresh hchain hn
    have hcur := Tx.Incr_chain c hrt hfit hnn ts p k n hw hp hk hkl hfresh hchain n
      (le_refl n) (by omega)
    exact (Tx.Incr_step c hfit (ts n) p k (hw n (le_refl n)) hp hk hkl n hn
      (Store.counter_cases c _ p k n hcur)).1
  · intro c d k ho
    exact Engine.Incr_blank_domain c d k ho
  · intro c d p ho hp
    exact Engine.Incr_blank_key c d p ho hp
  · intro c d p k ho hp hk hl
    exact Engine.Incr_key_too_large c d p k ho hp hk hl
  · intro c d p k ho hp hk hkl hfresh hl
    exact Engine.Incr_value_too_large c d p k ho hp hk hkl
      ((Store.entry_eq_none_iff _ p k).1 hfresh) hl
  · intro c d p k err ho
    exact Engine.Incr_not_open c d p k err ho
  · intro c d p k err ho hc
    exact Engine.Incr_not_committed c d p k err ho hc

/-- Witness of C2 (amended): `Incr("test", "counter")` on the empty database returns 1, and
the next one, on the file the first one left, returns 2. -/
theorem incr_counts_from_one_witness :
    (Engine.Incr bigEndianCodec emptyDisk "test" "counter").1 = (1, none) ∧
      (Engine.Incr bigEndianCodec (Engine.Incr bigEndianCodec emptyDisk "test" "counter").2
        "test" "counter").1 = (2, none) :=
  ⟨incr_counts_from_one.1 bigEndianCodec (fun _ => emptyDisk) "test" "counter" 0
      bigEndianCodec_roundTrip bigEndianCodec_fits (fun _ _ => rfl) (fun _ _ => rfl)
      (by decide) (by decide) (by decide) rfl (fun i hi => absurd hi (Nat.not_lt_zero i))
      (by norm_num),
    incr_counts_from_one.1 bigEndianCodec
      (fun i => if i = 0 then emptyDisk
        else (Engine.Incr bigEndianCodec emptyDisk "test" "counter").2)
      "test" "counter" 1
      bigEndianCodec_roundTrip bigEndianCodec_fits
      (fun i hi => by interval_cases i <;> rfl) (fun i hi => by interval_cases i <;> rfl)
      (by decide) (by decide) (by decide) rfl
      (fun i hi => by interval_cases i; rfl)
      (by norm_num)⟩

/-! ## Keys -/

theorem digitChar_nibble_ne (n : Nat) (h : n < 16) :
    Nat.digitChar n ≠ '.' ∧ Nat.digitChar n ≠ '-' ∧ Nat.digitChar n ≠ '<' := by
  interval_cases n <;> decide

theorem digitChar_nibble_inj :
    ∀ m < 16, ∀ n < 16, Nat.digitChar m = Nat.digitChar n → m = n := by decide

theorem digitChar_decimal (d : Nat) (h : d < 10) :
    (Nat.digitChar d).toNat - 48 = d ∧ (Nat.digitChar d).isDigit = true ∧
      (Nat.digitChar d = '0' → d = 0) := by
  interval_cases d <;> decide

theorem hexEncode_cons (b : UInt8) (bs : List UInt8) :
    hexEncode (b :: bs)
      = Nat.digitChar (b.toNat / 16) :: Nat.digitChar (b.toNat % 16) :: hexEncode bs := by
  simp [hexEncode]

theorem hexEncode_append (a b : List UInt8) :
    hexEncode (a ++ b) = hexEncode a ++ hexEncode b := by
  simp [hexEncode]

theorem hexEncode_length (bs : List UInt8) : (hexEncode bs).length = 2 * bs.length := by
  induction bs with
  | nil => rfl
  | cons b bs ih => rw [hexEncode_cons]; simp [ih]; omega

theorem hexEncode_mem {bs : List UInt8} {ch : Char} (h : ch ∈ hexEncode bs) :
    ∃ n, n < 16 ∧ ch = Nat.digitChar n := by
  induction bs with
  | nil => simp [hexEncode] at h
  | cons b bs ih =>
    rw [hexEncode_cons] at h
    have hb := UInt8.toNat_lt b
    rcases List.mem_cons.1 h with h | h
    · exact ⟨b.toNat / 16, by omega, h⟩
    · rcases List.mem_cons.1 h with h | h
      · exact ⟨b.toNat % 16, by omega, h⟩
      · exact ih h

theorem hexEncode_injective {a b : List UInt8} (h : hexEncode a = hexEncode b) : a = b := by
  induction a generalizing b with
  | nil =>
    cases b with
    | nil => rfl
    | cons y ys => rw [hexEncode_cons] at h; exact absurd h (by simp [hexEncode])
  | cons x xs ih =>
    cases b with
    | nil => rw [hexEncode_cons] at h; exact absurd h (by simp [hexEncode])
    | cons y ys =>
      rw [hexEncode_cons, hexEncode_cons] at h
      simp only [List.cons.injEq] at h
      obtain ⟨h1, h2, h3⟩ := h
      have hx := UInt8.toNat_lt x
      have hy := UInt8.toNat_lt y
      have e1 := digitChar_nibble_inj _ (by omega) _ (by omega) h1
      have e2 := digitChar_nibble_inj _ (by omega) _ (by omega) h2
      have hxy : x = y := UInt8.ext (by omega)
      rw [hxy, ih h3]

theorem hexEncode_filter (bs : List UInt8) :
    (hexEncode bs).filter (fun ch => ch != '-') = hexEncode bs := by
  rw [List.filter_eq_self]
  intro ch hch
  obtain ⟨n, hn, rfl⟩ := hexEncode_mem hch
  simpa using (digitChar_nibble_ne n hn).2.1

/-- Removing the dashes from the canonical form leaves the hexadecimal digits of the
sixteen bytes. -/
theorem UUID.String_filter (u : UUID) :
    u.String.data.filter (fun ch => ch != '-') = hexEncode u.bytes := by
  have h2 : ∀ (n : Nat) (l : List UInt8),
      hexEncode (l.take n) ++ hexEncode (l.drop n) = hexEncode l := by
    intro n l
    rw [← hexEncode_append, List.take_append_drop]
  have hd6 : List.drop 6 u.bytes = List.drop 2 (List.drop 4 u.bytes) := by simp
  have hd8 : List.drop 8 u.bytes = List.drop 2 (List.drop 6 u.bytes) := by simp
  have hd10 : List.drop 10 u.bytes = List.drop 2 (List.drop 8 u.bytes) := by simp
  simp only [UUID.String, List.filter_append, hexEncode_filter]
  have hdash : List.filter (fun ch => ch != '-') ['-'] = [] := by decide
  simp only [hdash, List.append_nil, List.append_assoc]
  rw [hd10, h2 2, hd8, h2 2, hd6, h2 2, h2 4]

theorem UUID.String_injective {u w : UUID} (h : u.String = w.String) : u = w := by
  have hb : u.bytes = w.bytes := by
    apply hexEncode_injective
    rw [← UUID.String_filter, ← UUID.String_filter, h]
  cases u
  cases w
  simp only at hb
  subst hb
  rfl

theorem UUID.String_length (u : UUID) : u.String.length = 36 := by
  simp [UUID.String, String.length, hexEncode_length, u.size]

theorem UUID.String_mem {u : UUID} {ch : Char} (h : ch ∈ u.String.data) :
    ch = '-' ∨ ∃ n, n < 16 ∧ ch = Nat.digitChar n := by
  simp only [UUID.String, List.mem_append, List.mem_singleton] at h
  rcases h with (((((((h | h) | h) | h) | h) | h) | h) | h) | h
  all_goals first
    | exact Or.inl h
    | exact Or.inr (hexEncode_mem h)

theorem fmtStringer_no_dot (id : Option UUID) : '.' ∉ (fmtStringer id).data := by
  cases id with
  | none => decide
  | some u =>
    intro h
    rcases UUID.String_mem h with h | ⟨n, hn, h⟩
    · exact absurd h (by decide)
    · exact (digitChar_nibble_ne n hn).1 h.symm

theorem fmtStringer_injective {a b : Option UUID} (h : fmtStringer a = fmtStringer b) :
    a = b := by
  cases a with
  | none =>
    cases b with
    | none => rfl
    | some w =>
      have := congrArg String.length h
      simp only [fmtStringer, UUID.String_length] at this
      exact absurd this (by decide)
  | some u =>
    cases b with
    | none =>
      have := congrArg String.length h
      simp only [fmtStringer, UUID.String_length] at this
      exact absurd this (by decide)
    | some w => rw [UUID.String_injective h]

theorem decimalValue_append_singleton (ds : List Char) (ch : Char) :
    decimalValue (ds ++ [ch]) = 10 * decimalValue ds + (ch.toNat - 48) := by
  simp [decimalValue, List.foldl_append]

/-- The digit loop writes, in front of `acc`, the base-10 rendering of `u` with no
leading zeros, provided it is given at least `u` rounds. -/
theorem fmtDigits_spec (fuel : Nat) :
    ∀ (u : Nat) (acc : List Char), u ≤ fuel →
      ∃ ds, fmtDigits fuel u acc = ds ++ acc ∧ IsDecimal ds u := by
  induction fuel with
  | zero =>
    intro u acc hu
    have hu0 : u = 0 := by omega
    subst hu0
    exact ⟨['0'], rfl, by decide, by decide, fun _ => rfl, rfl⟩
  | succ fuel ih =>
    intro u acc hu
    unfold fmtDigits
    split_ifs with h10
    · obtain ⟨ds, hds, hne, hdig, hhead, hval⟩ :=
        ih (u / 10) (Nat.digitChar (u % 10) :: acc) (by omega)
      have hd := digitChar_decimal (u % 10) (by omega)
      refine ⟨ds ++ [Nat.digitChar (u % 10)], by simp [hds], by simp, ?_, ?_, ?_⟩
      · intro ch hch
        rcases List.mem_append.1 hch with h | h
        · exact hdig ch h
        · rw [List.mem_singleton.1 h]
          exact hd.2.1
      · intro h0
        exfalso
        cases ds with
        | nil => exact hne rfl
        | cons x xs =>
          have hx : ((x :: xs).head? = some '0') := by simpa using h0
          have := hhead hx
          rw [this] at hval
          have hv0 : decimalValue ['0'] = 0 := by decide
          omega
      · rw [decimalValue_append_singleton, hval, hd.1]
        omega
    · have hd := digitChar_decimal u (by omega)
      refine ⟨[Nat.digitChar u], rfl, by simp, ?_, ?_, ?_⟩
      · intro ch hch
        rw [List.mem_singleton.1 hch]
        exact hd.2.1
      · intro h0
        have : Nat.digitChar u = '0' := by simpa using h0
        rw [hd.2.2 this]
        rfl
      · simp [decimalValue, hd.1]

theorem fmtDigits_isDecimal (n : Nat) : IsDecimal (fmtDigits n n []) n := by
  obtain ⟨ds, hds, h⟩ := fmtDigits_spec n n [] (le_refl n)
  rw [hds, List.append_nil]
  exact h

theorem fmtDigits_injective {m n : Nat} (h : fmtDigits m m [] = fmtDigits n n []) :
    m = n := by
  have hm := (fmtDigits_isDecimal m).2.2.2
  have hn := (fmtDigits_isDecimal n).2.2.2
  rw [h] at hm
  omega

theorem fmtDigits_head_ne_minus (n : Nat) (rest : List Char) :
    fmtDigits n n [] ≠ '-' :: rest := by
  intro h
  have := (fmtDigits_isDecimal n).2.1 '-' (by rw [h]; exact List.mem_cons_self _ _)
  exact absurd this (by decide)

theorem fmtD_injective {i j : Int} (h : fmtD i = fmtD j) : i = j := by
  have h := congrArg String.data h
  unfold fmtD at h
  split_ifs at h with hi hj hj
  · simp only [List.cons.injEq, true_and] at h
    have := fmtDigits_injective h
    omega
  · exact absurd h.symm (fmtDigits_head_ne_minus _ _)
  · exact absurd h (fmtDigits_head_ne_minus _ _)
  · have := fmtDigits_injective h
    omega

theorem append_dot_inj {a b x y : List Char} (ha : '.' ∉ a) (hb : '.' ∉ b)
    (h : a ++ '.' :: x = b ++ '.' :: y) : a = b ∧ x = y := by
  induction a generalizing b with
  | nil =>
    cases b with
    | nil => simpa using h
    | cons c b1 =>
      simp only [List.nil_append, List.cons_append, List.cons.injEq] at h
      exact absurd h.1 (fun hc => hb (by simp [← hc]))
  | cons c a1 ih =>
    cases b with
    | nil =>
      simp only [List.nil_append, List.cons_append, List.cons.injEq] at h
      exact absurd h.1 (fun hc => ha (by simp [hc]))
    | cons c1 b1 =>
      simp only [List.cons_append, List.cons.injEq] at h
      obtain ⟨hc, ht⟩ := h
      have := ih (fun hm => ha (List.mem_cons_of_mem _ hm))
        (fun hm => hb (List.mem_cons_of_mem _ hm)) ht
      exact ⟨by rw [hc, this.1], this.2⟩

theorem logKey_injective {m n : String} (h : logKey m = logKey n) : m = n := by
  have := congrArg String.data h
  simp only [logKey, String.data_append, List.append_cancel_left_eq] at this
  exact String.ext this

theorem segmentKey_injective {a b : Option UUID} (h : segmentKey a = segmentKey b) :
    a = b := by
  have := congrArg String.data h
  simp only [segmentKey, String.data_append, List.append_cancel_left_eq] at this
  exact fmtStringer_injective (String.ext this)

theorem blockKey_injective {a b : Option UUID} {i j : Int}
    (h : blockKey a i = blockKey b j) : a = b ∧ i = j := by
  have := congrArg String.data h
  simp only [blockKey, String.data_append, List.append_assoc,
    List.append_cancel_left_eq] at this
  simp only [List.singleton_append] at this
  obtain ⟨h1, h2⟩ := append_dot_inj (fmtStringer_no_dot a) (fmtStringer_no_dot b) this
  exact ⟨fmtStringer_injective (String.ext h1), fmtD_injective (String.ext h2)⟩

theorem key_kinds_differ (name : String) (id id1 : Option UUID) (idx : Int) :
    logKey name ≠ segmentKey id ∧ logKey name ≠ blockKey id idx ∧
      segmentKey id ≠ blockKey id1 idx := by
  refine ⟨?_, ?_, ?_⟩ <;> intro h <;> have := congrArg String.data h <;>
    simp [logKey, segmentKey, blockKey, String.data_append] at this

/-- C5. Key collision freedom: the mapping from the identity of an entity to its engine
key is injective across the three kinds; in particular distinct pairs of a segment UUID
and a block index (any integer, negative ones included) have distinct block keys, a log
key never equals a segment key or a block key whatever the log name contains, and the
sample UUID gives different keys with index 5 and with index 50. -/
theorem key_collision_free :
    (∀ a b : Identity, a ≠ b → a.key ≠ b.key) ∧
      (∀ (u w : Option UUID) (i j : Int), (u, i) ≠ (w, j) → blockKey u i ≠ blockKey w j) ∧
      (∀ (name : String) (id : Option UUID) (idx : Int),
        logKey name ≠ segmentKey id ∧ logKey name ≠ blockKey id idx) ∧
      blockKey (some sampleUUID) 5 ≠ blockKey (some sampleUUID) 50 := by
  have hblock : ∀ (u w : Option UUID) (i j : Int), (u, i) ≠ (w, j) →
      blockKey u i ≠ blockKey w j := by
    intro u w i j hne h
    obtain ⟨h1, h2⟩ := blockKey_injective h
    exact hne (by rw [h1, h2])
  refine ⟨?_, hblock, ?_, ?_⟩
  · intro a b hne h
    apply hne
    cases a with
    | log m =>
      cases b with
      | log n => rw [logKey_injective h]
      | segment id => exact absurd h (key_kinds_differ m id id 0).1
      | block id idx => exact absurd h (key_kinds_differ m id id idx).2.1
    | segment id =>
      cases b with
      | log n => exact absurd h.symm (key_kinds_differ n id id 0).1
      | segment id1 => rw [segmentKey_injective h]
      | block id1 idx => exact absurd h (key_kinds_differ "" id id1 idx).2.2
    | block id idx =>
      cases b with
      | log n => exact absurd h.symm (key_kinds_differ n id id idx).2.1
      | segment id1 => exact absurd h.symm (key_kinds_differ "" id1 id idx).2.2
      | block id1 idx1 =>
        obtain ⟨h1, h2⟩ := blockKey_injective h
        rw [h1, h2]
  · intro name id idx
    exact ⟨(key_kinds_differ name id id idx).1, (key_kinds_differ name id id idx).2.1⟩
  · exact hblock _ _ 5 50 (by simp)


/-! ## The DAL calls -/

section Calls
variable {σ α β : Type}

theorem GetLog_state (e : StorageTx σ) (cd : Codec α β) (domain name : String) (s : σ) :
    (GetLog e cd domain name s).2 = (e.Get domain (logKey name) s).2 := by
  unfold GetLog
  simp only
  split
  · simp [*]
  · simp [*]
  · split <;> simp [*]

theorem GetSegment_state (e : StorageTx σ) (cd : Codec α β) (domain : String)
    (id : Option UUID) (s : σ) :
    (GetSegment e cd domain id s).2 = (e.Get domain (segmentKey id) s).2 := by
  unfold GetSegment
  simp only
  split
  · simp [*]
  · simp [*]
  · split <;> simp [*]

theorem SetLog_ok (e : StorageTx σ) (cd : Codec α β) (domain : String) (l : Log α) (s : σ)
    (bytes : Option Bytes) (h : cd.marshalLog l = Except.ok bytes) :
    SetLog e cd domain l s = ((len bytes, (e.Set domain (logKey l.Name) bytes s).1),
      (e.Set domain (logKey l.Name) bytes s).2) := by
  simp [SetLog, h]

theorem SetLog_error (e : StorageTx σ) (cd : Codec α β) (domain : String) (l : Log α)
    (s : σ) (err : Error) (h : cd.marshalLog l = Except.error err) :
    SetLog e cd domain l s = ((0, some err), s) := by
  simp [SetLog, h]

theorem SetSegment_ok (e : StorageTx σ) (cd : Codec α β) (domain : String) (g : Segment β)
    (s : σ) (bytes : Option Bytes) (h : cd.marshalSegment g = Except.ok bytes) :
    SetSegment e cd domain g s
      = ((len bytes, (e.Set domain (segmentKey g.UUID) bytes s).1),
        (e.Set domain (segmentKey g.UUID) bytes s).2) := by
  simp [SetSegment, h]

theorem SetSegment_error (e : StorageTx σ) (cd : Codec α β) (domain : String)
    (g : Segment β) (s : σ) (err : Error) (h : cd.marshalSegment g = Except.error err) :
    SetSegment e cd domain g s = ((0, some err), s) := by
  simp [SetSegment, h]

theorem SetBlock_eq (e : StorageTx σ) (domain : String) (id : Option UUID) (idx : Int)
    (bytes : Option Bytes) (s : σ) :
    SetBlock e domain id idx bytes s
      = ((len bytes, (e.Set domain (blockKey id idx) bytes s).1),
        (e.Set domain (blockKey id idx) bytes s).2) := by
  simp [SetBlock]

end Calls

theorem fmtD_spec (i : Int) :
    ∃ ds, IsDecimal ds i.natAbs ∧ fmtD i = String.mk (if i < 0 then '-' :: ds else ds) := by
  refine ⟨fmtDigits i.natAbs i.natAbs [], fmtDigits_isDecimal _, ?_⟩
  unfold fmtD
  split_ifs <;> rfl

/-- C6. Key format is bit-exact: the key of a log is `log.` followed by the name
verbatim, the key of a segment is `segment.` followed by the canonical form of the UUID,
and the key of a block is `block.`, the canonical form, a dot and the base-10 rendering
of the index with no leading zeros (after a minus sign when the index is negative); the
Get, Set and Delete of one kind call the handle once, with that same key; and the sample
UUID with index 5 gives `block.123e4567-e89b-12d3-a456-426614174000.5`. -/
theorem key_format (d name : String) (u : UUID) (i : Int) :
    logKey name = "log." ++ name ∧
      segmentKey (some u) = "segment." ++ u.String ∧
      (∃ ds, IsDecimal ds i.natAbs ∧
        blockKey (some u) i
          = "block." ++ u.String ++ "." ++ String.mk (if i < 0 then '-' :: ds else ds)) ∧
      u.String.length = 36 ∧
      blockKey (some sampleUUID) 5 = "block.123e4567-e89b-12d3-a456-426614174000.5" ∧
      (∀ (σ α β : Type) (e : StorageTx σ) (cd : Codec α β) (s : σ),
        (GetLog (traced e) cd d name (s, [])).2.2 = [Call.get d ("log." ++ name)] ∧
        (∀ (l : Log α) (b : Option Bytes), l.Name = name → cd.marshalLog l = Except.ok b →
          (SetLog (traced e) cd d l (s, [])).2.2 = [Call.set d ("log." ++ name) b]) ∧
        (DeleteLog (traced e) d name (s, [])).2.2 = [Call.delete d ("log." ++ name)] ∧
        (GetSegment (traced e) cd d (some u) (s, [])).2.2
          = [Call.get d ("segment." ++ u.String)] ∧
        (∀ (g : Segment β) (b : Option Bytes), g.UUID = some u → cd.marshalSegment g = Except.ok b →
          (SetSegment (traced e) cd d g (s, [])).2.2
            = [Call.set d ("segment." ++ u.String) b]) ∧
        (DeleteSegment (traced e) d (some u) (s, [])).2.2
          = [Call.delete d ("segment." ++ u.String)] ∧
        (GetBlock (traced e) d (some u) i (s, [])).2.2
          = [Call.get d ("block." ++ u.String ++ "." ++ fmtD i)] ∧
        (∀ b : Option Bytes, (SetBlock (traced e) d (some u) i b (s, [])).2.2
          = [Call.set d ("block." ++ u.String ++ "." ++ fmtD i) b]) ∧
        (DeleteBlock (traced e) d (some u) i (s, [])).2.2
          = [Call.delete d ("block." ++ u.String ++ "." ++ fmtD i)]) := by
  refine ⟨rfl, rfl, ?_, UUID.String_length u, by decide, ?_⟩
  · obtain ⟨ds, hds, hfmt⟩ := fmtD_spec i
    exact ⟨ds, hds, by simp [blockKey, fmtStringer, hfmt]⟩
  · intro σ α β e cd s
    refine ⟨?_, ?_, ?_, ?_, ?_, ?_, ?_, ?_, ?_⟩
    · rw [GetLog_state]; simp [traced, logKey]
    · intro l b hn hm
      rw [SetLog_ok _ _ _ _ _ _ hm]; simp [traced, logKey, hn]
    · simp [DeleteLog, traced, logKey]
    · rw [GetSegment_state]; simp [traced, segmentKey, fmtStringer]
    · intro g b hu hm
      rw [SetSegment_ok _ _ _ _ _ _ hm]; simp [traced, segmentKey, fmtStringer, hu]
    · simp [DeleteSegment, traced, segmentKey, fmtStringer]
    · simp [GetBlock, traced, blockKey, fmtStringer]
    · intro b
      rw [SetBlock_eq]; simp [traced, blockKey, fmtStringer]
    · simp [DeleteBlock, traced, blockKey, fmtStringer]


/-! ## Round trip and delete -/

theorem boltHandle_getSet (del : String → String → BoltTx → Option Error × BoltTx) :
    GetSetContract (boltHandle del) := by
  intro d k v s s1 h
  obtain ⟨b, hb, hk⟩ := @Tx.Set_success s s1 d k v h
  left
  show (Tx.Get s1 d k).1 = (v, none)
  rw [Tx.Get_result, Store.find_of_entry hb hk]

theorem boltHandle_failedSet (del : String → String → BoltTx → Option Error × BoltTx) :
    FailedSetContract (boltHandle del) := by
  intro d k v s h d1 k1
  show (Tx.Get (Tx.Set s d k v).2 d1 k1).1 = (Tx.Get s d1 k1).1
  rw [Tx.Get_result, Tx.Get_result, Tx.Set_failed s d k v h]

theorem plainCodec_logRoundTrip : plainCodec.LogRoundTrip := by
  intro l l0 b h
  simp only [plainCodec, Except.ok.injEq] at h
  subst h
  exact ⟨_, rfl, rfl⟩

theorem plainCodec_keepsIdentity : plainCodec.KeepsIdentity := by
  intro b l0 l1 h
  simp only [plainCodec, Except.ok.injEq] at h
  subst h
  exact ⟨rfl, rfl⟩

theorem nilCodec_logRoundTrip : nilCodec.LogRoundTrip := by
  intro l l0 b _
  exact ⟨l0, rfl, rfl⟩

theorem nilCodec_keepsIdentity : nilCodec.KeepsIdentity := by
  intro b l0 l1 h
  simp only [nilCodec, Except.ok.injEq] at h
  subst h
  exact ⟨rfl, rfl⟩

theorem stampingCodec_logRoundTrip : stampingCodec.LogRoundTrip := by
  intro l l0 b h
  simp only [stampingCodec, Except.ok.injEq] at h
  subst h
  exact ⟨_, rfl, rfl⟩

theorem mapTx_delete : DeleteContract mapTx := by
  intro d k s s1 h
  simp only [mapTx, Prod.mk.injEq, true_and] at h
  subst h
  simp [mapTx]

/-- What `GetLog` returns when the handle returns a non-nil slice and no error. -/
theorem GetLog_of_bytes {σ α β : Type} (e : StorageTx σ) (cd : Codec α β)
    (domain name : String) (s : σ) (b : Bytes)
    (h : (e.Get domain (logKey name) s).1 = (some b, none)) :
    (GetLog e cd domain name s).1
      = (match cd.unmarshalLog b { Domain := domain, Name := name, rest := cd.zeroLog } with
        | Except.error err => (none, some err)
        | Except.ok log => (some log, none)) := by
  cases hg : e.Get domain (logKey name) s with
  | mk r s1 =>
    rw [hg] at h
    simp only at h
    subst h
    simp only [GetLog, hg]
    split <;> rfl

/-- After a successful `SetLog`, a `GetLog` whose handle returns a non-nil slice with
the bytes of the encoding returns the log. -/
theorem GetLog_of_encoding {σ α β : Type} (e : StorageTx σ) (cd : Codec α β)
    (hcd : cd.LogRoundTrip) (d : String) (l : Log α) (s1 : σ) (bytes : Option Bytes)
    (hm : cd.marshalLog l = Except.ok bytes)
    (hg : (e.Get d (logKey l.Name) s1).1 = (some (bytes.getD []), none)) :
    ∃ l1, (GetLog e cd d l.Name s1).1 = (some l1, none) ∧ l1.rest = l.rest ∧
      (cd.KeepsIdentity → l1.Domain = d ∧ l1.Name = l.Name) := by
  obtain ⟨l1, hun, hrest⟩ :=
    hcd l { Domain := d, Name := l.Name, rest := cd.zeroLog } bytes hm
  refine ⟨l1, ?_, hrest, fun hk => hk _ _ _ hun⟩
  rw [GetLog_of_bytes e cd d l.Name s1 _ hg, hun]

/-- Counterexample to C7 as stated: in one write transaction on the empty database, with
the boltdb transaction methods as the handle (which satisfy the Get/Set contract) and a
codec whose `unmarshalLog` undoes `marshalLog`, leaves `Domain` and `Name` as they are
and encodes a log as the nil slice, `SetLog` succeeds and the following `GetLog` returns
`(nil, nil)`; and with a codec that restores the remaining content of a log but sets
`Domain`, `SetLog` succeeds and the `Domain` of the log `GetLog` returns is not the
domain it was read from. -/
theorem log_round_trip_nil_encoding :
    GetSetContract (boltHandle (fun _ _ t => (none, t))) ∧
      nilCodec.LogRoundTrip ∧ nilCodec.KeepsIdentity ∧
      (SetLog (boltHandle (fun _ _ t => (none, t))) nilCodec "test"
        { Domain := "test", Name := "events", rest := () }
        { writable := true, root := fun _ => none }).1 = (0, none) ∧
      (GetLog (boltHandle (fun _ _ t => (none, t))) nilCodec "test" "events"
        (SetLog (boltHandle (fun _ _ t => (none, t))) nilCodec "test"
          { Domain := "test", Name := "events", rest := () }
          { writable := true, root := fun _ => none }).2).1 = (none, none) ∧
      stampingCodec.LogRoundTrip ∧
      (SetLog (boltHandle (fun _ _ t => (none, t))) stampingCodec "test"
        { Domain := "test", Name := "events", rest := world }
        { writable := true, root := fun _ => none }).1 = (5, none) ∧
      (GetLog (boltHandle (fun _ _ t => (none, t))) stampingCodec "test" "events"
        (SetLog (boltHandle (fun _ _ t => (none, t))) stampingCodec "test"
          { Domain := "test", Name := "events", rest := world }
          { writable := true, root := fun _ => none }).2).1
        = (some { Domain := "stamped", Name := "events", rest := world }, none) :=
  ⟨boltHandle_getSet _, nilCodec_logRoundTrip, nilCodec_keepsIdentity, by decide, by rfl,
    stampingCodec_logRoundTrip, by decide, by rfl⟩

/-- After a successful `SetLog` on a handle with the Get/Set contract: what the following
`GetLog` returns, by the slice `marshalLog` returned. -/
theorem GetLog_after_SetLog {σ α β : Type} (e : StorageTx σ) (cd : Codec α β)
    (he : GetSetContract e) (hcd : cd.LogRoundTrip) (d : String) (l : Log α) (s s1 : σ)
    (n : Nat) (h : SetLog e cd d l s = ((n, none), s1)) :
    (∀ b : Bytes, cd.marshalLog l = Except.ok (some b) →
        ∃ l1, (GetLog e cd d l.Name s1).1 = (some l1, none) ∧ l1.rest = l.rest ∧
          (cd.KeepsIdentity → l1.Domain = d ∧ l1.Name = l.Name)) ∧
      (cd.marshalLog l = Except.ok none →
        (GetLog e cd d l.Name s1).1 = (none, none) ∨
        ∃ l1, (GetLog e cd d l.Name s1).1 = (some l1, none) ∧ l1.rest = l.rest ∧
          (cd.KeepsIdentity → l1.Domain = d ∧ l1.Name = l.Name)) := by
  have hset : ∀ bytes, cd.marshalLog l = Except.ok bytes →
      e.Set d (logKey l.Name) bytes s = (none, s1) := by
    intro bytes hm
    rw [SetLog_ok _ _ _ _ _ _ hm] at h
    simp only [Prod.mk.injEq] at h
    exact Prod.ext h.1.2 h.2
  refine ⟨?_, ?_⟩
  · intro b hm
    have hg : (e.Get d (logKey l.Name) s1).1 = (some b, none) := by
      rcases he d (logKey l.Name) (some b) s s1 (hset _ hm) with hg | hg <;> exact hg
    exact GetLog_of_encoding e cd hcd d l s1 (some b) hm hg
  · intro hm
    rcases he d (logKey l.Name) none s s1 (hset _ hm) with hg | hg
    · left
      rw [GetLog_absent e cd d l.Name s1 hg]
    · right
      exact GetLog_of_encoding e cd hcd d l s1 none hm hg

/-- With the boltdb transaction methods as the handle, a `GetLog` in the transaction in
which `SetLog` stored a nil encoding returns `(nil, nil)`. -/
theorem GetLog_after_nil_SetLog {α β : Type}
    (del : String → String → BoltTx → Option Error × BoltTx) (cd : Codec α β)
    (d : String) (l : Log α) (t t1 : BoltTx) (n : Nat)
    (h : SetLog (boltHandle del) cd d l t = ((n, none), t1))
    (hm : cd.marshalLog l = Except.ok none) :
    (GetLog (boltHandle del) cd d l.Name t1).1 = (none, none) := by
  rw [SetLog_ok _ _ _ _ _ _ hm] at h
  have hset : Tx.Set t d (logKey l.Name) none = (none, t1) := by
    simp only [Prod.mk.injEq] at h
    exact Prod.ext h.1.2 h.2
  obtain ⟨b, hb, hk⟩ := Tx.Set_success hset
  have hg : ((boltHandle del).Get d (logKey l.Name) t1).1 = (none, none) := by
    show (Tx.Get t1 d (logKey l.Name)).1 = (none, none)
    rw [Tx.Get_result, Store.find_of_entry hb hk]
  rw [GetLog_absent (boltHandle del) cd d l.Name t1 hg]

/-- C7 (amended). Log round trip: for every transaction handle that satisfies the Get/Set
contract and every codec whose `unmarshalLog` undoes `marshalLog`, if `SetLog(tx, d, l)`
succeeds and `marshalLog` returned a non-nil slice, then `GetLog(tx, d, l.Name)`
returns, with no error, a non-nil log whose remaining content is that of `l`, and whose
`Domain` is `d` and whose `Name` is the name of `l` when `unmarshalLog` leaves these
two fields as they are. If `marshalLog` returned the nil slice, `GetLog` returns either
such a log or `(nil, nil)`; with the boltdb transaction methods as the handle, in the
transaction of the `SetLog`, it returns `(nil, nil)`. -/
theorem log_round_trip :
    (∀ (σ α β : Type) (e : StorageTx σ) (cd : Codec α β) (d : String) (l : Log α)
        (s s1 : σ) (n : Nat),
        GetSetContract e → cd.LogRoundTrip → SetLog e cd d l s = ((n, none), s1) →
        (∀ b : Bytes, cd.marshalLog l = Except.ok (some b) →
          ∃ l1, (GetLog e cd d l.Name s1).1 = (some l1, none) ∧ l1.rest = l.rest ∧
            (cd.KeepsIdentity → l1.Domain = d ∧ l1.Name = l.Name)) ∧
        (cd.marshalLog l = Except.ok none →
          (GetLog e cd d l.Name s1).1 = (none, none) ∨
          ∃ l1, (GetLog e cd d l.Name s1).1 = (some l1, none) ∧ l1.rest = l.rest ∧
            (cd.KeepsIdentity → l1.Domain = d ∧ l1.Name = l.Name))) ∧
      (∀ (α β : Type) (del : String → String → BoltTx → Option Error × BoltTx)
        (cd : Codec α β) (d : String) (l : Log α) (t t1 : BoltTx) (n : Nat),
        SetLog (boltHandle del) cd d l t = ((n, none), t1) →
        cd.marshalLog l = Except.ok none →
        (GetLog (boltHandle del) cd d l.Name t1).1 = (none, none)) :=
  ⟨fun _ _ _ e cd d l s s1 n he hcd h => GetLog_after_SetLog e cd he hcd d l s s1 n h,
    fun _ _ del cd d l t t1 n h hm => GetLog_after_nil_SetLog del cd d l t t1 n h hm⟩

/-- Witness of C7 (amended): the log `events` with content `world`, written and read
through the boltdb transaction methods in a write transaction on the empty database. -/
theorem log_round_trip_witness :
    (SetLog (boltHandle (fun _ _ t => (none, t))) plainCodec "test"
        { Domain := "", Name := "events", rest := world }
        { writable := true, root := fun _ => none }).1 = (5, none) ∧
      (GetLog (boltHandle (fun _ _ t => (none, t))) plainCodec "test" "events"
        (SetLog (boltHandle (fun _ _ t => (none, t))) plainCodec "test"
          { Domain := "", Name := "events", rest := world }
          { writable := true, root := fun _ => none }).2).1
        = (some { Domain := "test", Name := "events", rest := world }, none) ∧
      ∃ l1 : Log Bytes,
        (GetLog (boltHandle (fun _ _ t => (none, t))) plainCodec "test" "events"
          (SetLog (boltHandle (fun _ _ t => (none, t))) plainCodec "test"
            { Domain := "", Name := "events", rest := world }
            { writable := true, root := fun _ => none }).2).1 = (some l1, none) ∧
        l1.rest = world ∧ l1.Domain = "test" ∧ l1.Name = "events" :=
  ⟨by decide, by rfl,
    let ⟨l1, h1, h2, h3⟩ := (log_round_trip.1 BoltTx Bytes Bytes
      (boltHandle (fun _ _ t => (none, t))) plainCodec "test"
      { Domain := "", Name := "events", rest := world }
      { writable := true, root := fun _ => none } _ 5
      (boltHandle_getSet _) plainCodec_logRoundTrip (Prod.ext (by decide) rfl)).1
      world rfl
    ⟨l1, h1, h2, h3 plainCodec_keepsIdentity⟩⟩

theorem readOnlyTx_delete : DeleteContract readOnlyTx := by
  intro d k s s1 h
  simp [readOnlyTx] at h

/-- Counterexample to C8 as stated (the BoltDB transaction handle provides the Delete
operation the DAL calls; Delete followed by Get returns nil): the DAL calls `Delete` on
its handle, and `Delete` is not among the methods engine.go declares on `*Tx`; and on a
handle that satisfies the Delete contract but refuses the delete, as a read-only
transaction does, `DeleteLog` returns the error and the following `GetLog` still returns
the log. -/
theorem bolt_tx_has_no_delete :
    ("Delete" ∈ StorageTx.methods ∧ "Delete" ∉ Tx.methods) ∧
      DeleteContract readOnlyTx ∧
      (DeleteLog readOnlyTx "test" "events"
        (fun d k => if d = "test" ∧ k = "log.events" then some world else none)).1
        = some Error.ErrTxNotWritable ∧
      (GetLog readOnlyTx plainCodec "test" "events"
        (DeleteLog readOnlyTx "test" "events"
          (fun d k => if d = "test" ∧ k = "log.events" then some world else none)).2).1
        = (some { Domain := "test", Name := "events", rest := world }, none) :=
  ⟨by decide, readOnlyTx_delete, rfl, rfl⟩

/-- C8 (amended). Delete makes the entity absent: for every transaction handle that
satisfies the Delete contract, a `DeleteLog`, `DeleteSegment` or `DeleteBlock` that
reports no error, followed by the matching `GetLog`, `GetSegment` or `GetBlock` with the
same domain and identity, returns nil with no error; the methods of the BoltDB
transaction handle are `Get`, `Set` and `Incr`. -/
theorem delete_then_get_absent {σ α β : Type} (e : StorageTx σ) (cd : Codec α β)
    (he : DeleteContract e) (d name : String) (id : Option UUID) (idx : Int) (s : σ) :
    (∀ s1, DeleteLog e d name s = (none, s1) →
        (GetLog e cd d name s1).1 = (none, none)) ∧
      (∀ s1, DeleteSegment e d id s = (none, s1) →
        (GetSegment e cd d id s1).1 = (none, none)) ∧
      (∀ s1, DeleteBlock e d id idx s = (none, s1) →
        (GetBlock e d id idx s1).1 = (none, none)) ∧
      (∀ m ∈ Tx.methods, m = "Get" ∨ m = "Set" ∨ m = "Incr") := by
  refine ⟨?_, ?_, ?_, by decide⟩
  · intro s1 h
    rw [GetLog_absent e cd d name s1 (he d (logKey name) s s1 h)]
  · intro s1 h
    rw [GetSegment_absent e cd d id s1 (he d (segmentKey id) s s1 h)]
  · intro s1 h
    exact he d (blockKey id idx) s s1 h

/-- Witness of C8 (amended): the in-memory handle holding the log `events` of the domain
`test`; after `DeleteLog` the log is absent. -/
theorem delete_then_get_absent_witness :
    (GetLog mapTx plainCodec "test" "events"
        (fun d k => if d = "test" ∧ k = "log.events" then some world else none)).1
        = (some { Domain := "test", Name := "events", rest := world }, none) ∧
      (GetLog mapTx plainCodec "test" "events"
        (DeleteLog mapTx "test" "events"
          (fun d k => if d = "test" ∧ k = "log.events" then some world else none)).2).1
        = (none, none) :=
  ⟨by rfl,
    (delete_then_get_absent mapTx plainCodec mapTx_delete "test" "events" none 0
      (fun d k => if d = "test" ∧ k = "log.events" then some world else none)).1 _ rfl⟩

/-! ## SetX -/

/-- An `Engine.Set` that reports an error leaves the database file as it was. -/
theorem Engine.Set_rollback (d : Disk) (p k : String) (v : Option Bytes)
    (h : (Engine.Set d p k v).1 ≠ none) : (Engine.Set d p k v).2 = d := by
  unfold Engine.Set Disk.Open Disk.Update at h ⊢
  cases ho : d.openErr with
  | some err => simp
  | none =>
    simp only [ho] at h ⊢
    cases hs : (Tx.Set { writable := true, root := d.store } p k v).1 with
    | some err => simp [hs]
    | none =>
      cases hc : d.commitErr with
      | some err => simp [hs, hc]
      | none => simp [hs, hc] at h

/-- C10. SetX reports the encoded length: `SetBlock` calls `tx.Set` exactly once, with
the domain, the block key and the bytes (a nil slice included), and returns the length
of the bytes together with the error of that call; `SetLog` and `SetSegment` do the same with the marshalled
bytes, and when marshalling fails they return 0 and the marshal error without calling
the handle. On a handle whose failed `Set` does not take effect, as the boltdb
transaction methods are, a `SetBlock`, `SetLog` or `SetSegment` that returns an error
did not take effect: every `Get` returns what it returned before. An `Engine.Set` that
returns an error leaves the database file as it was. -/
theorem setX_reports_length {σ α β : Type} (e : StorageTx σ) (cd : Codec α β) (d : String)
    (id : Option UUID) (idx : Int) (b : Option Bytes) (l : Log α) (g : Segment β) (s : σ) :
    ((SetBlock (traced e) d id idx b (s, [])).2.2 = [Call.set d (blockKey id idx) b] ∧
      SetBlock e d id idx b s = ((len b, (e.Set d (blockKey id idx) b s).1),
        (e.Set d (blockKey id idx) b s).2)) ∧
    (∀ bytes, cd.marshalLog l = Except.ok bytes →
      (SetLog (traced e) cd d l (s, [])).2.2 = [Call.set d (logKey l.Name) bytes] ∧
      SetLog e cd d l s = ((len bytes, (e.Set d (logKey l.Name) bytes s).1),
        (e.Set d (logKey l.Name) bytes s).2)) ∧
    (∀ err, cd.marshalLog l = Except.error err →
      SetLog (traced e) cd d l (s, []) = ((0, some err), (s, []))) ∧
    (∀ bytes, cd.marshalSegment g = Except.ok bytes →
      (SetSegment (traced e) cd d g (s, [])).2.2 = [Call.set d (segmentKey g.UUID) bytes] ∧
      SetSegment e cd d g s = ((len bytes, (e.Set d (segmentKey g.UUID) bytes s).1),
        (e.Set d (segmentKey g.UUID) bytes s).2)) ∧
    (∀ err, cd.marshalSegment g = Except.error err →
      SetSegment (traced e) cd d g (s, []) = ((0, some err), (s, []))) ∧
    (FailedSetContract e →
      ((SetBlock e d id idx b s).1.2 ≠ none → ∀ d1 k1 : String,
        (e.Get d1 k1 (SetBlock e d id idx b s).2).1 = (e.Get d1 k1 s).1) ∧
      ((SetLog e cd d l s).1.2 ≠ none → ∀ d1 k1 : String,
        (e.Get d1 k1 (SetLog e cd d l s).2).1 = (e.Get d1 k1 s).1) ∧
      ((SetSegment e cd d g s).1.2 ≠ none → ∀ d1 k1 : String,
        (e.Get d1 k1 (SetSegment e cd d g s).2).1 = (e.Get d1 k1 s).1)) ∧
    (∀ del : String → String → BoltTx → Option Error × BoltTx,
      FailedSetContract (boltHandle del)) ∧
    (∀ (disk : Disk) (p k : String) (v : Option Bytes),
      (Engine.Set disk p k v).1 ≠ none → (Engine.Set disk p k v).2 = disk) := by
  refine ⟨⟨?_, SetBlock_eq e d id idx b s⟩, ?_, ?_, ?_, ?_, ?_, boltHandle_failedSet,
    Engine.Set_rollback⟩
  · rw [SetBlock_eq]; simp [traced]
  · intro bytes hm
    refine ⟨?_, SetLog_ok e cd d l s bytes hm⟩
    rw [SetLog_ok _ _ _ _ _ _ hm]; simp [traced]
  · intro err hm
    exact SetLog_error _ _ _ _ _ _ hm
  · intro bytes hm
    refine ⟨?_, SetSegment_ok e cd d g s bytes hm⟩
    rw [SetSegment_ok _ _ _ _ _ _ hm]; simp [traced]
  · intro err hm
    exact SetSegment_error _ _ _ _ _ _ hm
  · intro he
    refine ⟨?_, ?_, ?_⟩
    · rw [SetBlock_eq]
      intro h d1 k1
      exact he d (blockKey id idx) b s h d1 k1
    · cases hm : cd.marshalLog l with
      | error err => rw [SetLog_error _ _ _ _ _ _ hm]; intro _ d1 k1; rfl
      | ok bytes =>
        rw [SetLog_ok _ _ _ _ _ _ hm]
        intro h d1 k1
        exact he d (logKey l.Name) bytes s h d1 k1
    · cases hm : cd.marshalSegment g with
      | error err => rw [SetSegment_error _ _ _ _ _ _ hm]; intro _ d1 k1; rfl
      | ok bytes =>
        rw [SetSegment_ok _ _ _ _ _ _ hm]
        intro h d1 k1
        exact he d (segmentKey g.UUID) bytes s h d1 k1

/-- Witness of C10: `SetBlock` of the five bytes `world` through the boltdb transaction
methods returns 5 and no error after one `Set` call, and a `SetLog` whose marshalling
fails returns 0 and the marshal error without any call. -/
theorem setX_reports_length_witness :
    (SetBlock (boltHandle (fun _ _ t => (none, t))) "test" (some sampleUUID) 5
        (some world) { writable := true, root := fun _ => none }).1 = (5, none) ∧
      (SetBlock (traced (boltHandle (fun _ _ t => (none, t)))) "test" (some sampleUUID) 5
        (some world) ({ writable := true, root := fun _ => none }, [])).2.2
        = [Call.set "test" "block.123e4567-e89b-12d3-a456-426614174000.5" (some world)] ∧
      (SetLog (traced mapTx) failingCodec "test"
        { Domain := "test", Name := "events", rest := world } (fun _ _ => none, [])).1
        = (0, some (Error.other "marshal")) ∧
      (SetLog (traced mapTx) failingCodec "test"
        { Domain := "test", Name := "events", rest := world } (fun _ _ => none, [])).2.2
        = [] := by
  have h1 := setX_reports_length (boltHandle (fun _ _ t => (none, t))) plainCodec "test"
    (some sampleUUID) 5 (some world) { Domain := "test", Name := "events", rest := world }
    { UUID := none, Domain := "test", rest := world }
    { writable := true, root := fun _ => none }
  have h2 := setX_reports_length mapTx failingCodec "test"
    (some sampleUUID) 5 (some world) { Domain := "test", Name := "events", rest := world }
    { UUID := none, Domain := "test", rest := world } (fun _ _ => none)
  refine ⟨?_, ?_, ?_, ?_⟩
  · rw [h1.1.2]; decide
  · rw [h1.1.1]; decide
  · rw [h2.2.2.1 (Error.other "marshal") rfl]
  · rw [h2.2.2.1 (Error.other "marshal") rfl]


end Origins
